import Mathlib

/-!
Verification development for the schema-forge repository (src/src/index.js).

The JavaScript source is shallowly embedded: JS scalar cell values become the
inductive `JSValue`; JS numbers are modelled as exact rationals (`Rat`) — the
values exercised here are small decimals on which IEEE-754 arithmetic is exact,
and no claim depends on float rounding; JS objects / rows become ordered
association lists; JS `Map` / object insertion-order semantics become ordered
association-list updates; the one reachable runtime error (a property read on a
`null` array entry) is modelled with `Except`.

Regular expressions from the source are translated into explicit character-level
matchers, each annotated with the regex it mirrors.
-/

namespace SchemaForge

/-- JS scalar values as they appear in dataset cells: `null`/`undefined`,
booleans, numbers (exact rationals), and strings. -/
inductive JSValue where
  | vNull : JSValue
  | vBool : Bool → JSValue
  | vNum : Rat → JSValue
  | vStr : String → JSValue
deriving DecidableEq, Repr

/-! Structural string helpers.  The corresponding core `String` functions
(`trim`, `toLower`, `startsWith`, `split`, …) are implemented on byte
positions with well-founded recursion, which the kernel cannot evaluate; these
list-based versions compute the same functions on the ASCII/Unicode data and
keep every definition kernel-executable.  JS `trim` also removes a few exotic
whitespace code points; the model uses `Char.isWhitespace` (space, tab, CR,
LF), which covers all inputs exercised here. -/

/-- JS `String.prototype.trim()`. -/
def jsTrim (s : String) : String :=
  String.mk (((s.data.dropWhile Char.isWhitespace).reverse.dropWhile
    Char.isWhitespace).reverse)

/-- ASCII `toLowerCase()`. -/
def lowerStr (s : String) : String :=
  String.mk (s.data.map Char.toLower)

def isPrefixChars : List Char → List Char → Bool
  | [], _ => true
  | _ :: _, [] => false
  | p :: ps, c :: cs => p = c && isPrefixChars ps cs

/-- `s.startsWith(p)`. -/
def startsWithStr (s p : String) : Bool :=
  isPrefixChars p.data s.data

/-- `s.endsWith(p)`. -/
def endsWithStr (s p : String) : Bool :=
  isPrefixChars p.data.reverse s.data.reverse

/-- Substring containment (for the `%H`/`%I` test of `toJSONSchema`). -/
def containsSubstr (needle hay : String) : Bool :=
  go needle.data hay.data
where
  go (n : List Char) : List Char → Bool
    | [] => isPrefixChars n []
    | c :: cs => isPrefixChars n (c :: cs) || go n cs

def splitCharAux (p : Char → Bool) : List Char → List Char → List String
  | [], acc => [String.mk acc.reverse]
  | c :: rest, acc =>
    if p c then String.mk acc.reverse :: splitCharAux p rest []
    else splitCharAux p rest (c :: acc)

/-- `s.split(sep)` for a single-character separator class. -/
def splitChar (p : Char → Bool) (s : String) : List String :=
  splitCharAux p s.data []

/-- `array.join(sep)`. -/
def joinSep (sep : String) : List String → String
  | [] => ""
  | [x] => x
  | x :: xs => x ++ sep ++ joinSep sep xs

/-- Left-pad a string with `'0'` to length `k` (for decimal fraction digits). -/
def leftPadZero (s : String) (k : Nat) : String :=
  String.mk (List.replicate (k - s.length) '0') ++ s

/-- Smallest `k ≤ 39` such that `q * 10^k` is integral — since `q` is reduced,
that is: `q.den` divides `10^k`.  Every number produced by the numeric parser
below has such a `k` (its denominator divides a power of ten of the fraction
length). -/
def decDigits (q : Rat) : Option Nat :=
  (List.range 40).find? (fun k => q.den ∣ 10 ^ k)

/-- Render a nonnegative rational the way JS `String(number)` renders the
decimal numbers reachable in this code base: integer part, then the fraction
with trailing zeros stripped (minimality of `k` strips them).  With
`q.den ∣ 10^k`, the integer `q * 10^k` is `q.num * (10^k / q.den)`.  The
fallback branch is unreachable for parser-produced values. -/
def renderNonneg (q : Rat) : String :=
  match decDigits q with
  | none => toString q.num ++ "/" ++ toString q.den
  | some k =>
    let m := (q.num * ((10 ^ k : Nat) / q.den : Nat)).toNat
    if k = 0 then toString m
    else toString (m / 10 ^ k) ++ "." ++ leftPadZero (toString (m % 10 ^ k)) k

/-- Exact rational subtraction written through `mkRat` (the library's
`Rat.sub` is `@[irreducible]`, which would make the embedded definitions
non-evaluable; `mkRat (a.num * b.den - b.num * a.den) (a.den * b.den)` is the
same difference). -/
def subQ (a b : Rat) : Rat :=
  mkRat (a.num * b.den - b.num * a.den) (a.den * b.den)

/-- JS `String(n)` for a number `n` (decimal-representable range). -/
def jsNumberToString (q : Rat) : String :=
  if q < 0 then "-" ++ renderNonneg (-q) else renderNonneg q

/-- JS `String(value)` on the scalar values of the model.  (`String(null)` is
only reachable behind `value == null` guards in the source, so the `vNull`
case is never observed.) -/
def jsToString (v : JSValue) : String :=
  match v with
  | .vNull => "null"
  | .vBool b => if b then "true" else "false"
  | .vNum q => jsNumberToString q
  | .vStr s => s

/-- ASCII-case-insensitive string equality (JS `/i` regex flags and
`toLowerCase()` comparisons on the ASCII-only patterns of the source). -/
def eqCI (a b : String) : Bool :=
  lowerStr a = lowerStr b

/-- Numeric value of a digit list (most significant first). -/
def digitsVal (ds : List Char) : Nat :=
  ds.foldl (fun a c => a * 10 + (c.toNat - 48)) 0

/-- Match `^[+-]?\d+(?:\.\d+)?$` and return the denoted rational
`int + frac/10^len`, built with `mkRat` over the combined numerator.
This is the clean-numeric-residual test of `normalizeNumber` and of the
classifier's number rule (source lines 50 and 164). -/
def parseDecimal (s : String) : Option Rat :=
  let core : List Char → Option Rat := fun ds =>
    let intPart := ds.takeWhile Char.isDigit
    let rest := ds.dropWhile Char.isDigit
    if intPart.isEmpty then none
    else
      match rest with
      | [] => some (digitsVal intPart)
      | '.' :: fr =>
        if fr.isEmpty then none
        else if fr.all Char.isDigit then
          some (mkRat (digitsVal intPart * 10 ^ fr.length + digitsVal fr) (10 ^ fr.length))
        else none
      | _ => none
  match s.data with
  | [] => none
  | c :: rest =>
    if c = '+' then core rest
    else if c = '-' then (core rest).map (fun q => -q)
    else core (c :: rest)

/-- Result of the currency/percent stripping pipeline shared by
`normalizeNumber` (lines 40-48) and `detectTypeAndFormat` (lines 151-163). -/
structure Stripped where
  residual : String
  hadPercent : Bool
  hadCurrency : Bool
deriving DecidableEq, Repr

/-- Strip one leading currency symbol: regex `^[\$€£]\s?` (replace once). -/
def stripLeadingCurrencySymbol (s : String) : String × Bool :=
  match s.data with
  | c :: rest =>
    if c = '$' ∨ c = '€' ∨ c = '£' then
      match rest with
      | w :: rest2 => if w.isWhitespace then (String.mk rest2, true) else (String.mk rest, true)
      | [] => (String.mk rest, true)
    else (s, false)
  | [] => (s, false)

/-- The fixed currency-code set of the source, lower-cased. -/
def currencyCodes : List String :=
  ["usd", "eur", "gbp", "aud", "cad", "nzd", "jpy", "cny", "inr"]

/-- Strip one trailing currency code: regex `\s?(USD|EUR|GBP|AUD|CAD|NZD|JPY|CNY|INR)$/i`
(the optional `\s` is a single whitespace character immediately before the code). -/
def stripTrailingCurrencyCode (s : String) : String × Bool :=
  let cs := s.data
  if cs.length ≥ 3 then
    let code := String.mk (cs.drop (cs.length - 3))
    if (currencyCodes.contains (lowerStr code)) then
      let front := cs.take (cs.length - 3)
      match front.reverse with
      | w :: frontRev2 => if w.isWhitespace then (String.mk frontRev2.reverse, true)
                          else (String.mk front, true)
      | [] => (String.mk front, true)
    else (s, false)
  else (s, false)

/-- The whole stripping pipeline, in source order: leading symbol, trailing
code, all grouping commas (`/,/g`), one trailing `%` followed by `trim()`. -/
def stripNumeric (s : String) : Stripped :=
  let (s1, hadCur1) := stripLeadingCurrencySymbol s
  let (s2, hadCur2) := stripTrailingCurrencyCode s1
  let s3 := String.mk (s2.data.filter (fun c => c ≠ ','))
  if endsWithStr s3 "%" then
    { residual := jsTrim (String.mk (s3.data.dropLast))
      hadPercent := true
      hadCurrency := hadCur1 ∨ hadCur2 }
  else
    { residual := s3, hadPercent := false, hadCurrency := hadCur1 ∨ hadCur2 }

/--
`normalizeNumber(value, { emptyAsNull = false })` (source lines 35-55):
numeric passthrough; `null`/empty-after-trim → `null` if `emptyAsNull`, else
the original value; otherwise strip currency/commas/percent and return the
parsed number when the residual matches `^[+-]?\d+(?:\.\d+)?$`, else
`emptyAsNull ? null : value` (line 54).
-/
def normalizeNumber (value : JSValue) (emptyAsNull : Bool := false) : JSValue :=
  match value with
  | .vNum q => .vNum q
  | .vNull => if emptyAsNull then .vNull else value
  | _ =>
    let s := jsTrim (jsToString value)
    if s = "" then (if emptyAsNull then .vNull else value)
    else
      let st := stripNumeric s
      if st.residual = "" then (if emptyAsNull then .vNull else value)
      else
        match parseDecimal st.residual with
        | some q => .vNum q
        | none => if emptyAsNull then .vNull else value

/-- `normalizeBoolean(value)` (source lines 63-70). -/
def normalizeBoolean (value : JSValue) : JSValue :=
  match value with
  | .vBool b => .vBool b
  | .vNull => value
  | _ =>
    let s := lowerStr (jsTrim (jsToString value))
    if s = "true" then .vBool true
    else if s = "false" then .vBool false
    else value

/-- `isLikelyList(s)` (source lines 77-82): split on `[;,|]`, trim parts, drop
empties, require ≥ 2 parts with mean length ≤ 30. -/
def isLikelyList (s : String) : Bool :=
  let parts := ((splitChar (fun c => c = ';' ∨ c = ',' ∨ c = '|') s).map jsTrim)
    |>.filter (fun p => p ≠ "")
  if parts.length < 2 then false
  else
    let sumLen := (parts.map String.length).sum
    (mkRat sumLen parts.length) ≤ 30

/-! ### JSON validity (the `JSON.parse` attempt of the classifier)

`detectTypeAndFormat` tries `JSON.parse` on strings that start/end with braces
or brackets, only to know whether parsing succeeds (source lines 191-197).  We
model that with a validity checker for the JSON grammar accepted by
`JSON.parse` (RFC 8259: no trailing commas, `"`-strings with the standard
escapes, numbers `-?int frac? exp?`).  Recursion is bounded by fuel; every
nested parse consumes at least one character, so fuel `|s| + 1` is enough. -/

/-- JSON whitespace (`ws` of RFC 8259). -/
def jsonWsChar (c : Char) : Bool := c = ' ' ∨ c = '\t' ∨ c = '\n' ∨ c = '\r'

def skipJsonWs (l : List Char) : List Char := l.dropWhile jsonWsChar

def isHexDigitChar (c : Char) : Bool :=
  c.isDigit ∨ ('a' ≤ c ∧ c ≤ 'f') ∨ ('A' ≤ c ∧ c ≤ 'F')

/-- Consume a JSON string body after the opening quote; returns the remainder. -/
def jsonStringTail : List Char → Option (List Char)
  | [] => none
  | c :: rest =>
    if c = '"' then some rest
    else if c = '\\' then
      match rest with
      | [] => none
      | e :: rest2 =>
        if e = '"' ∨ e = '\\' ∨ e = '/' ∨ e = 'b' ∨ e = 'f' ∨ e = 'n' ∨ e = 'r' ∨ e = 't' then
          jsonStringTail rest2
        else if e = 'u' then
          match rest2 with
          | a :: b :: c2 :: d :: rest3 =>
            if isHexDigitChar a ∧ isHexDigitChar b ∧ isHexDigitChar c2 ∧ isHexDigitChar d then
              jsonStringTail rest3
            else none
          | _ => none
        else none
    else if c.toNat ≥ 32 then jsonStringTail rest
    else none

/-- Consume the exponent part `([eE][+-]?\d+)?` of a JSON number. -/
def jsonExpTail (l : List Char) : Option (List Char) :=
  match l with
  | c :: r =>
    if c = 'e' ∨ c = 'E' then
      let r2 := match r with
        | s :: r3 => if s = '+' ∨ s = '-' then r3 else r
        | [] => r
      match r2 with
      | d :: _ => if d.isDigit then some (r2.dropWhile Char.isDigit) else none
      | [] => none
    else some l
  | [] => some l

/-- Consume the fraction part `(\.\d+)?` then the exponent of a JSON number. -/
def jsonFracTail (l : List Char) : Option (List Char) :=
  match l with
  | '.' :: r =>
    match r with
    | d :: _ => if d.isDigit then jsonExpTail (r.dropWhile Char.isDigit) else none
    | [] => none
  | _ => jsonExpTail l

/-- Consume a JSON number (`-? (0 | [1-9]\d*) frac? exp?`). -/
def jsonNumber (l : List Char) : Option (List Char) :=
  let l1 := match l with
    | '-' :: r => r
    | _ => l
  match l1 with
  | '0' :: r => jsonFracTail r
  | c :: r => if c.isDigit then jsonFracTail (r.dropWhile Char.isDigit) else none
  | [] => none

/-- Consume a fixed keyword. -/
def jsonLit (kw : List Char) (l : List Char) : Option (List Char) :=
  if l.take kw.length = kw then some (l.drop kw.length) else none

mutual

/-- Consume one JSON value (with surrounding whitespace before it). -/
def jsonVal : Nat → List Char → Option (List Char)
  | 0, _ => none
  | fuel + 1, l =>
    match skipJsonWs l with
    | [] => none
    | c :: r =>
      if c = '"' then jsonStringTail r
      else if c = '{' then jsonObjBody fuel (skipJsonWs r) true
      else if c = '[' then jsonArrBody fuel (skipJsonWs r) true
      else if c = 't' then jsonLit ['r', 'u', 'e'] r
      else if c = 'f' then jsonLit ['a', 'l', 's', 'e'] r
      else if c = 'n' then jsonLit ['u', 'l', 'l'] r
      else jsonNumber (c :: r)

/-- Consume object members up to and including the closing `}`.
`allowEmpty` is true just after `{` (an immediate `}` is legal) and false just
after a comma (a member is required — `JSON.parse` rejects trailing commas). -/
def jsonObjBody : Nat → List Char → Bool → Option (List Char)
  | 0, _, _ => none
  | fuel + 1, l, allowEmpty =>
    match l with
    | '}' :: r => if allowEmpty then some r else none
    | '"' :: r =>
      match jsonStringTail r with
      | none => none
      | some r2 =>
        match skipJsonWs r2 with
        | ':' :: r3 =>
          match jsonVal fuel r3 with
          | none => none
          | some r4 =>
            match skipJsonWs r4 with
            | ',' :: r5 => jsonObjBody fuel (skipJsonWs r5) false
            | '}' :: r5 => some r5
            | _ => none
        | _ => none
    | _ => none

/-- Consume array elements up to and including the closing `]`. -/
def jsonArrBody : Nat → List Char → Bool → Option (List Char)
  | 0, _, _ => none
  | fuel + 1, l, allowEmpty =>
    match l with
    | ']' :: r => if allowEmpty then some r else none
    | _ =>
      match jsonVal (fuel + 1) l with
      | none => none
      | some r2 =>
        match skipJsonWs r2 with
        | ',' :: r3 => jsonArrBody fuel r3 false
        | ']' :: r3 => some r3
        | _ => none

end

/-- Does `JSON.parse(s)` succeed? -/
def jsonValid (s : String) : Bool :=
  match jsonVal (s.length + 1) s.data with
  | some rest => skipJsonWs rest = []
  | none => false

/-! ### String-subformat matchers (classifier lines 174-207) -/

/-- `^(19|20)\d{2}[-–]\d{2}$` — financial year such as `2011-12`. -/
def finYearRe (s : String) : Bool :=
  match s.data with
  | [a, b, c, d, e, f, g] =>
    ((a = '1' ∧ b = '9') ∨ (a = '2' ∧ b = '0')) ∧ c.isDigit ∧ d.isDigit ∧
      (e = '-' ∨ e = '–') ∧ f.isDigit ∧ g.isDigit
  | _ => false

/-- `^(https?:\/\/)\S+$/i`. -/
def urlRe (s : String) : Bool :=
  let low := lowerStr s
  let rest : Option (List Char) :=
    if startsWithStr low "https://" then some (s.data.drop 8)
    else if startsWithStr low "http://" then some (s.data.drop 7)
    else none
  match rest with
  | some r => ¬ r.isEmpty ∧ r.all (fun c => ¬ c.isWhitespace)
  | none => false

def emailLocalChar (c : Char) : Bool :=
  c.isAlpha ∨ c.isDigit ∨ c = '.' ∨ c = '_' ∨ c = '%' ∨ c = '+' ∨ c = '-'

def emailDomainChar (c : Char) : Bool :=
  c.isAlpha ∨ c.isDigit ∨ c = '.' ∨ c = '-'

/-- `^[A-Z0-9._%+-]+@[A-Z0-9.-]+\.[A-Z]{2,}$/i`.  The domain part matches iff
splitting at its *last* dot yields a nonempty `[A-Z0-9.-]+` prefix and an
all-letter suffix of length ≥ 2 (the suffix admits no dot, so the dot of any
successful backtracking split is the last one). -/
def emailRe (s : String) : Bool :=
  match splitChar (fun c => c = '@') s with
  | [localPart, domain] =>
    localPart.length ≥ 1 ∧ localPart.data.all emailLocalChar ∧
      (let rev := domain.data.reverse
       let tldRev := rev.takeWhile (fun c => c ≠ '.')
       let rest := rev.drop (tldRev.length + 1)
       rev.length > tldRev.length ∧  -- a dot exists
         tldRev.length ≥ 2 ∧ tldRev.all Char.isAlpha ∧
         rest.length ≥ 1 ∧ rest.all emailDomainChar)
  | _ => false

/-- `^\d{1,3}(\.\d{1,3}){3}$`. -/
def ipRe (s : String) : Bool :=
  let parts := splitChar (fun c => c = '.') s
  parts.length = 4 ∧
    parts.all (fun p => 1 ≤ p.length ∧ p.length ≤ 3 ∧ p.data.all Char.isDigit)

/-- `^\+?\d[\d\s().-]{8,}$`. -/
def phoneRe (s : String) : Bool :=
  let l := match s.data with
    | '+' :: r => r
    | r => r
  match l with
  | c :: rest =>
    c.isDigit ∧ rest.length ≥ 8 ∧
      rest.all (fun d => d.isDigit ∨ d.isWhitespace ∨ d = '(' ∨ d = ')' ∨ d = '.' ∨ d = '-')
  | [] => false

/-- `^#[0-9A-Fa-f]{6}$`. -/
def colorRe (s : String) : Bool :=
  match s.data with
  | '#' :: rest => rest.length = 6 ∧ rest.all isHexDigitChar
  | _ => false

/-! ### Date format guesser (source lines 683-734) -/

/-- Consume exactly `n` digits, returning their value and the remainder. -/
def takeDigitsN (n : Nat) (l : List Char) : Option (Nat × List Char) :=
  let ds := l.take n
  if ds.length = n ∧ ds.all Char.isDigit then some (digitsVal ds, l.drop n) else none

/-- Hour alternative `(?:[01]?\d)|(?:2[0-3])` as a whole-token test. -/
def hourOk (ds : List Char) : Bool :=
  match ds with
  | [d] => d.isDigit
  | [a, b] => ((a = '0' ∨ a = '1') ∧ b.isDigit) ∨ (a = '2' ∧ '0' ≤ b ∧ b ≤ '3')
  | _ => false

/-- Two-digit `[0-5]\d` token. -/
def minuteOk (ds : List Char) : Bool :=
  match ds with
  | [a, b] => '0' ≤ a ∧ a ≤ '5' ∧ b.isDigit
  | _ => false

/-- Trailing `(?:\s*(AM|PM))?$` of the time regex. -/
def ampmEnd (l : List Char) (hasSec : Bool) : Option String :=
  match l with
  | [] => some (if hasSec then "%H:%M:%S" else "%H:%M")
  | _ =>
    let t := String.mk (l.dropWhile Char.isWhitespace)
    if eqCI t "am" ∨ eqCI t "pm" then
      some (if hasSec then "%I:%M:%S %p" else "%I:%M %p")
    else none

/-- `^((?:[01]?\d)|(?:2[0-3])):([0-5]\d)(?::([0-5]\d))?(?:\s*(AM|PM))?$/i`
(the hour token is everything before the first colon). -/
def timeFormatRe (v : String) : Option String :=
  let l := v.data
  let hrs := l.takeWhile (fun c => c ≠ ':')
  if ¬ hourOk hrs then none
  else
    match l.drop hrs.length with
    | ':' :: rest =>
      if minuteOk (rest.take 2) then
        match rest.drop 2 with
        | ':' :: r2 =>
          if minuteOk (r2.take 2) then ampmEnd (r2.drop 2) true else none
        | r2 => ampmEnd r2 false
      else none
    | _ => none

/-- Trailing `(Z|[+-]\d{2}:?\d{2})?$`: `some hadTz` when the remainder is a
valid (possibly absent) timezone suffix ending the string. -/
def tzEnd (l : List Char) : Option Bool :=
  match l with
  | [] => some false
  | ['Z'] => some true
  | c :: rest =>
    if c = '+' ∨ c = '-' then
      match rest with
      | [a, b, ':', d, e] =>
        if a.isDigit ∧ b.isDigit ∧ d.isDigit ∧ e.isDigit then some true else none
      | [a, b, d, e] =>
        if a.isDigit ∧ b.isDigit ∧ d.isDigit ∧ e.isDigit then some true else none
      | _ => none
    else none

/-- Fraction+timezone tail `(?:\.(\d+))?(Z|...)?$` after the seconds. -/
def isoFracTz (l : List Char) : Option (Bool × Bool) :=
  match l with
  | '.' :: r =>
    let ds := r.takeWhile Char.isDigit
    if ds.isEmpty then none
    else (tzEnd (r.drop ds.length)).map (fun tz => (true, tz))
  | _ => (tzEnd l).map (fun tz => (false, tz))

/-- ISO date/datetime regex of line 696, producing the strftime format exactly
as lines 697-711 assemble it. -/
def isoRe (v : String) : Option String :=
  let l := v.data
  match takeDigitsN 4 l with
  | some (_, '-' :: r1) =>
    match takeDigitsN 2 r1 with
    | some (_, '-' :: r2) =>
      match takeDigitsN 2 r2 with
      | some (_, rest) =>
        let sep := if v.data.contains 'T' then "T" else " "
        match rest with
        | [] => some "%Y-%m-%d"
        | c :: r3 =>
          if c = 'T' ∨ c.isWhitespace then
            match takeDigitsN 2 r3 with
            | some (_, ':' :: r4) =>
              match takeDigitsN 2 r4 with
              | some (_, r5) =>
                let secPart : Option (Bool × List Char) :=
                  match r5 with
                  | ':' :: r6 =>
                    match takeDigitsN 2 r6 with
                    | some (_, r7) => some (true, r7)
                    | none => none
                  | _ => some (false, r5)
                match secPart with
                | none => none
                | some (hasSec, r8) =>
                  match isoFracTz r8 with
                  | none => none
                  | some (hasFrac, hasTz) =>
                    some ("%Y-%m-%d" ++ sep ++ "%H:%M" ++
                      (if hasSec then ":%S" else "") ++
                      (if hasFrac then ".%f" else "") ++
                      (if hasTz then "%z" else ""))
              | none => none
            | _ => none
          else
            -- no time part: only a timezone suffix may remain
            match tzEnd rest with
            | some true => some "%Y-%m-%d%z"
            | some false => some "%Y-%m-%d"
            | none => none
      | none => none
    | _ => none
  | _ => none

/-- `^\d{4}\/\d{2}\/\d{2}$` (and the `-` variant, unreachable after `isoRe`). -/
def ymdSlashRe (v : String) : Bool :=
  match v.data with
  | [a, b, c, d, '/', e, f, '/', g, h] =>
    a.isDigit ∧ b.isDigit ∧ c.isDigit ∧ d.isDigit ∧ e.isDigit ∧ f.isDigit ∧ g.isDigit ∧ h.isDigit
  | _ => false

def ymdDashRe (v : String) : Bool :=
  match v.data with
  | [a, b, c, d, '-', e, f, '-', g, h] =>
    a.isDigit ∧ b.isDigit ∧ c.isDigit ∧ d.isDigit ∧ e.isDigit ∧ f.isDigit ∧ g.isDigit ∧ h.isDigit
  | _ => false

/-- `^(\d{1,2})([\/\-])(\d{1,2})\2(\d{4})$` with the day/month disambiguation
of lines 719-727. -/
def dmyRe (v : String) : Option String :=
  let l := v.data
  let aDigits := l.takeWhile Char.isDigit
  if 1 ≤ aDigits.length ∧ aDigits.length ≤ 2 then
    match l.drop aDigits.length with
    | sep :: r1 =>
      if sep = '/' ∨ sep = '-' then
        let bDigits := r1.takeWhile Char.isDigit
        if 1 ≤ bDigits.length ∧ bDigits.length ≤ 2 then
          match r1.drop bDigits.length with
          | sep2 :: r2 =>
            if sep2 = sep then
              match takeDigitsN 4 r2 with
              | some (_, []) =>
                let a := digitsVal aDigits
                let b := digitsVal bDigits
                let sepS := String.mk [sep]
                if a > 12 ∧ b ≤ 12 then some ("%d" ++ sepS ++ "%m" ++ sepS ++ "%Y")
                else if b > 12 ∧ a ≤ 12 then some ("%m" ++ sepS ++ "%d" ++ sepS ++ "%Y")
                else some ("%m" ++ sepS ++ "%d" ++ sepS ++ "%Y")
              | _ => none
            else none
          | [] => none
        else none
      else none
    | [] => none
  else none

/-- `^\d{2}-\d{2}-\d{4}$` (unreachable after `dmyRe`; kept in source order). -/
def ddmmDashRe (v : String) : Bool :=
  match v.data with
  | [a, b, '-', c, d, '-', e, f, g, h] =>
    a.isDigit ∧ b.isDigit ∧ c.isDigit ∧ d.isDigit ∧ e.isDigit ∧ f.isDigit ∧ g.isDigit ∧ h.isDigit
  | _ => false

/-- `^\d{2}\/\d{2}\/\d{4}$` (unreachable after `dmyRe`; kept in source order). -/
def ddmmSlashRe (v : String) : Bool :=
  match v.data with
  | [a, b, '/', c, d, '/', e, f, g, h] =>
    a.isDigit ∧ b.isDigit ∧ c.isDigit ∧ d.isDigit ∧ e.isDigit ∧ f.isDigit ∧ g.isDigit ∧ h.isDigit
  | _ => false

/-- `guessDateFormatFromString(s)` (source lines 683-734): fixed pattern list
evaluated in order, or `null`. -/
def guessDateFormatFromString (s : String) : Option String :=
  let v := jsTrim s
  if v = "" then none
  else
    match timeFormatRe v with
    | some fmt => some fmt
    | none =>
      match isoRe v with
      | some fmt => some fmt
      | none =>
        if ymdSlashRe v then some "%Y/%m/%d"
        else if ymdDashRe v then some "%Y-%m-%d"
        else
          match dmyRe v with
          | some fmt => some fmt
          | none =>
            if ddmmDashRe v then some "%d-%m-%Y"
            else if ddmmSlashRe v then some "%m/%d/%Y"
            else none

/-! ### The value classifier (`detectTypeAndFormat`, source lines 133-211) -/

/-- A base-type/format classification. -/
structure TF where
  type : String
  format : Option String
deriving DecidableEq, Repr

/-- String-subformat fallback chain of the classifier (lines 174-210).  After
the JSON attempt, every remaining branch of the source — the identifier
heuristic (line 199), the sentence/length heuristics (lines 203-207) and the
default (line 210) — returns `{type: "String", format: "Text"}`, so the chain
collapses to `"Text"`. -/
def stringSubformat (vStr : String) : TF :=
  if finYearRe vStr then ⟨"String", some "Financial year"⟩
  else if urlRe vStr then ⟨"String", some "URL"⟩
  else if emailRe vStr then ⟨"String", some "Email"⟩
  else if ipRe vStr then ⟨"String", some "IP Address"⟩
  else if phoneRe vStr then ⟨"String", some "Phone Number"⟩
  else if colorRe vStr then ⟨"String", some "Color"⟩
  else if startsWithStr vStr "data:image" then ⟨"String", some "Image"⟩
  else if startsWithStr vStr "data:audio" then ⟨"String", some "Audio"⟩
  else if startsWithStr vStr "data:video" then ⟨"String", some "Video"⟩
  else if (startsWithStr vStr "\x7b" ∧ endsWithStr vStr "\x7d") ∨
          (startsWithStr vStr "[" ∧ endsWithStr vStr "]") then
    if jsonValid vStr then ⟨"String", some (if startsWithStr vStr "\x7b" then "Object" else "JSON")⟩
    else ⟨"String", some "Text"⟩
  else ⟨"String", some "Text"⟩

/-- `detectTypeAndFormat(value, preferStringNumbers)`: `none` for
null/undefined/empty-after-trim, otherwise the first matching rule of
Boolean → Date → Number (skipped under `preferStringNumbers`) → String. -/
def detectTypeAndFormat (value : JSValue) (preferStringNumbers : Bool := false) : Option TF :=
  match value with
  | .vNull => none
  | _ =>
    let vStr := jsTrim (jsToString value)
    if vStr = "" then none
    else if ((match value with | .vBool _ => true | _ => false) ||
            eqCI vStr "true" || eqCI vStr "false") then
      some ⟨"Boolean", some "Boolean"⟩
    else
      match guessDateFormatFromString vStr with
      | some fmt => some ⟨"Date", some fmt⟩
      | none =>
        if ¬ preferStringNumbers then
          match value with
          | .vNum q => some ⟨"Number", some (if q.den = 1 then "Integer" else "Float")⟩
          | _ =>
            let st := stripNumeric vStr
            match parseDecimal st.residual with
            | some n =>
              some ⟨"Number", some (if st.hadPercent then "Percentage"
                else if st.hadCurrency then "Currency"
                else if n.den = 1 then "Integer" else "Float")⟩
            | none => some (stringSubformat vStr)
        else some (stringSubformat vStr)

/-! ### Rows, ordered maps, accumulator (source lines 224-383)

JS objects and `Map`s preserve (string-key) insertion order; both are modelled
as ordered association lists whose update leaves an existing key in place and
appends a missing one.  Key sanitisation (`sanitizeKeys`, §4.5 of the spec) is
outside every claim and is not modelled; the embedding corresponds to the
default `sanitizeKeys: false`, under which `sourceName` is never set. -/

/-- A row object: ordered own enumerable properties. -/
abbrev Row := List (String × JSValue)

/-- One entry of the dataset array: an object row, a non-object primitive
(number/string/boolean — property reads yield `undefined`), or
`null`/`undefined` (property reads throw `TypeError`). -/
inductive RowEntry where
  | obj : Row → RowEntry
  | prim : RowEntry
  | nullish : RowEntry
deriving DecidableEq, Repr

/-- The object rows of a dataset, in order (line 252 skips the rest). -/
def objsOf (entries : List RowEntry) : List Row :=
  entries.filterMap (fun e => match e with | .obj r => some r | _ => none)

/-- First value for a key in an ordered association list (JS property read). -/
def lookupL {α : Type} (l : List (String × α)) (k : String) : Option α :=
  (l.find? (fun p => p.1 = k)).map (fun p => p.2)

/-- `Map.set`-style counter bump: update in place or append with count 1. -/
def bumpCount (l : List (String × Nat)) (k : String) : List (String × Nat) :=
  if l.any (fun p => p.1 = k) then
    l.map (fun p => if p.1 = k then (p.1, p.2 + 1) else p)
  else l ++ [(k, 1)]

/-- `Set.add`-style insertion-ordered deduplicating append. -/
def addIfNew (l : List String) (s : String) : List String :=
  if s ∈ l then l else l ++ [s]

/-- Add a format label to `formatsByType` under a base type. -/
def fbtAdd (l : List (String × List String)) (ty fmt : String) :
    List (String × List String) :=
  if l.any (fun p => p.1 = ty) then
    l.map (fun p => if p.1 = ty then (p.1, addIfNew p.2 fmt) else p)
  else l ++ [(ty, [fmt])]

/-- Running numeric statistics (`numStats` accumulator of line 292).  The JS
`Infinity`/`-Infinity` sentinels for `min`/`max` are modelled as `none`. -/
structure NumAgg where
  count : Nat := 0
  sum : Rat := 0
  sumSq : Rat := 0
  min : Option Rat := none
  max : Option Rat := none
deriving DecidableEq, Repr

/-- Running text-length statistics (line 294); `minLen: Infinity` is `none`. -/
structure TextAgg where
  count : Nat := 0
  minLen : Option Nat := none
  maxLen : Nat := 0
  sumLen : Nat := 0
deriving DecidableEq, Repr

/-- The per-column accumulator state (source lines 267-296). -/
structure Entry where
  types : List String := []
  formatsByType : List (String × List String) := []
  sawNonEmpty : Bool := false
  nonEmptyCount : Nat := 0
  uniqueValues : List String := []
  valueCounts : List (String × Nat) := []
  formatCounts : List (String × Nat) := []
  typeCounts : List (String × Nat) := []
  strSeen : List String := []
  hasStringDuplicate : Bool := false
  strValueCounts : List (String × Nat) := []
  maxStrValueCount : Nat := 0
  strObsCount : Nat := 0
  textFormatCounts : List (String × Nat) := []
  listCount : Nat := 0
  lastNum : Option Rat := none
  numCount : Nat := 0
  isSequential : Bool := true
  numFourDigitCount : Nat := 0
  numInRangeCount : Nat := 0
  numStats : NumAgg := {}
  textStats : TextAgg := {}
deriving DecidableEq, Repr

/-- The tally label of a classification (line 309): the format when it is a
nonempty string, else the base type. -/
def labelOf (tf : TF) : String :=
  match tf.format with
  | some f => if f.length > 0 then f else tf.type
  | none => tf.type

/-- The key under which a value enters `uniqueValues` (line 315): the trimmed
string for string input, `String(value)` otherwise. -/
def distinctKeyOf (v : JSValue) : String :=
  match v with
  | .vStr s => jsTrim s
  | _ => jsToString v

/-- String-branch update of the accumulator (source lines 319-349).  Each
field is updated at most once and every right-hand side reads the pre-update
state, so the statement sequence of the source is written as one record
update (`c` is the post-bump frequency of `s`, compared against the previous
maximum exactly as in line 334). -/
def stringUpdate (e : Entry) (tf : TF) (vRaw : JSValue) : Entry :=
  match vRaw with
  | .vNull => e  -- `raw != null` guard, unreachable after detection
  | _ =>
    let s := jsTrim (jsToString vRaw)
    if s = "" then e
    else
      let c := ((lookupL e.strValueCounts s).getD 0) + 1
      { e with
        strObsCount := e.strObsCount + 1
        hasStringDuplicate := if s ∈ e.strSeen then true else e.hasStringDuplicate
        strSeen := if s ∈ e.strSeen then e.strSeen else e.strSeen ++ [s]
        strValueCounts := bumpCount e.strValueCounts s
        valueCounts := bumpCount e.valueCounts s
        maxStrValueCount := if c > e.maxStrValueCount then c else e.maxStrValueCount
        textFormatCounts :=
          if tf.format = some "Text" then bumpCount e.textFormatCounts "Text"
          else e.textFormatCounts
        listCount := if isLikelyList s then e.listCount + 1 else e.listCount
        textStats :=
          { count := e.textStats.count + 1
            sumLen := e.textStats.sumLen + s.length
            minLen := some (match e.textStats.minLen with
              | none => s.length
              | some m => if s.length < m then s.length else m)
            maxLen := if s.length > e.textStats.maxLen then s.length
              else e.textStats.maxLen } }

/-- Number-branch update of the accumulator (source lines 352-381), likewise
as one record update: `numCount` goes from `0` to `1` and otherwise gains `1`
(uniformly `+1`), and `isSequential` is only consulted/cleared after the first
observation.  In the rational model every parsed number is finite, so the
`Number.isFinite` guard always passes when normalisation yields a number. -/
def numberUpdate (e : Entry) (vRaw : JSValue) : Entry :=
  match normalizeNumber vRaw false with
  | .vNum n =>
    { e with
      numStats :=
        { count := e.numStats.count + 1
          sum := e.numStats.sum + n
          sumSq := e.numStats.sumSq + n * n
          min := some (match e.numStats.min with
            | none => n
            | some m => if n < m then n else m)
          max := some (match e.numStats.max with
            | none => n
            | some m => if n > m then n else m) }
      valueCounts := bumpCount e.valueCounts (jsNumberToString n)
      lastNum := some n
      numCount := e.numCount + 1
      isSequential :=
        if e.numCount = 0 then e.isSequential
        else if (match e.lastNum with
            | some last => subQ n last ≠ 1
            | none => false : Bool) then false
        else e.isSequential
      numFourDigitCount :=
        if n.den = 1 ∧ 1000 ≤ n ∧ n ≤ 9999 then e.numFourDigitCount + 1
        else e.numFourDigitCount
      numInRangeCount :=
        if n.den = 1 ∧ 1800 ≤ n ∧ n ≤ 2100 then e.numInRangeCount + 1
        else e.numInRangeCount }
  | _ => e

/-- Fold one classified cell into an entry (source lines 299-381). -/
def accumCell (e : Entry) (tf : TF) (vRaw : JSValue) : Entry :=
  let e := { e with
    sawNonEmpty := true
    types := addIfNew e.types tf.type
    formatsByType := fbtAdd e.formatsByType tf.type (tf.format.getD "__none__")
    nonEmptyCount := e.nonEmptyCount + 1
    formatCounts := bumpCount e.formatCounts (labelOf tf)
    typeCounts := bumpCount e.typeCounts tf.type }
  let dk := distinctKeyOf vRaw
  let e := if dk ≠ "" then { e with uniqueValues := addIfNew e.uniqueValues dk } else e
  let e := if tf.type = "String" then stringUpdate e tf vRaw else e
  if tf.type = "Number" then numberUpdate e vRaw else e

/-- The accumulator map: column name → entry, in encounter order. -/
abbrev AccMap := List (String × Entry)

/-- Apply an entry transformation at a key, creating the entry from the
initialiser object of lines 267-296 when absent. -/
def accBump (acc : AccMap) (name : String) (g : Entry → Entry) : AccMap :=
  if acc.any (fun p => p.1 = name) then
    acc.map (fun p => if p.1 = name then (p.1, g p.2) else p)
  else acc ++ [(name, g {})]

/-- Accumulate one object row (inner loop of lines 254-382). -/
def accumRow (p : Bool) (acc : AccMap) (row : Row) : AccMap :=
  row.foldl (fun acc cell =>
    match detectTypeAndFormat cell.2 p with
    | none => acc
    | some tf => accBump acc cell.1 (fun e => accumCell e tf cell.2)) acc

/-- Accumulate all object rows (lines 251-383; non-object entries are the
`continue` of line 252 and never reach this fold). -/
def accumulate (p : Bool) (rows : List Row) : AccMap :=
  rows.foldl (accumRow p) []

/-! ### Column descriptors and the schema resolver (source lines 385-607) -/

/-- Numeric summary statistics of a resolved Number column.  `stdevSq` carries
the clamped sample variance `max 0 ((sumSq − sum²/n)/(n−1))`; the source
reports its square root (`Math.sqrt`, line 557), which has no exact rational
representative — no claim depends on the root itself. -/
structure NumStatsOut where
  min : Rat
  max : Rat
  mean : Rat
  stdevSq : Rat
deriving DecidableEq, Repr

structure TextStatsOut where
  minLen : Nat
  maxLen : Nat
  avgLen : Rat
deriving DecidableEq, Repr

/-- The public column descriptor (`ColumnSchema` typedef, lines 6-26).
Fields that a resolver branch does not set are `none`/defaults. -/
structure ColumnSchema where
  name : String
  type : String
  format : Option String := none
  repeating : Option Bool := none
  sequential : Option Bool := none
  score : Option Rat := none
  probably : Option String := none
  tally : List (String × Nat) := []
  completeness : Rat := 0
  distinctCount : Nat := 0
  cardinality : Rat := 0
  topK : List (String × Nat) := []
  numStats : Option NumStatsOut := none
  textStats : Option TextStatsOut := none
  uniquenessRatio : Rat := 0
  isUnique : Bool := false
  isPrimaryKey : Bool := false
deriving DecidableEq, Repr

/-- Stable insertion into a count-descending list: `x` goes before the first
element whose count is not larger.  Folding this is the unique stable sort by
`(a,b) => b[1]-a[1]`, matching the (spec-stable) JS `Array.prototype.sort`. -/
def insertDesc (x : String × Nat) : List (String × Nat) → List (String × Nat)
  | [] => [x]
  | y :: ys => if x.2 ≥ y.2 then x :: y :: ys else y :: insertDesc x ys

/-- `entries.sort((a,b) => b[1]-a[1])`. -/
def sortDesc (l : List (String × Nat)) : List (String × Nat) :=
  l.foldr insertDesc []

/-- Sum of the counts of a tally. -/
def sumCounts (l : List (String × Nat)) : Nat :=
  (l.map (fun p => p.2)).sum

/-- One row's contribution of `guessColumnDateFormat(rows, columnName)` to
the date-format counts (source lines 745-751). -/
def dateGuessStep (name : String) (counts : List (String × Nat)) (row : Row) :
    List (String × Nat) :=
  match lookupL row name with
  | none => counts                      -- undefined: `raw == null`
  | some .vNull => counts
  | some v =>
    if jsToString v = "" then counts    -- `raw === ''`
    else
      match guessDateFormatFromString (jsToString v) with
      | none => counts
      | some fmt => bumpCount counts fmt

/-- The verdict over the counted formats (lines 752-756; sorting cannot
change which of the three cases applies). -/
def countsVerdict (counts : List (String × Nat)) : Option String :=
  match counts with
  | [] => none
  | [(fmt, _)] => some fmt
  | _ => some "__mixed__"

def guessColumnDateFormat (rows : List Row) (name : String) : Option String :=
  countsVerdict (rows.foldl (dateGuessStep name) [])

/-- `guessColumnDateFormat` over raw dataset entries: reading a property of a
`null`/`undefined` entry throws `TypeError` (line 746 has no row-null check);
non-object primitives yield `undefined` and are skipped. -/
inductive JsError where
  | typeError : JsError
deriving DecidableEq, Repr

def guessColumnDateFormatE (entries : List RowEntry) (name : String) :
    Except JsError (Option String) := do
  let counts ← entries.foldlM (fun counts entry => do
    match entry with
    | .nullish => throw .typeError
    | .prim => pure counts
    | .obj row => pure (dateGuessStep name counts row)) ([] : List (String × Nat))
  pure (countsVerdict counts)

/-- The descriptor emitted for a column with no non-empty observation
(line 396).  Unreachable: an accumulator entry is only created by a
successful classification, which immediately sets `sawNonEmpty`. -/
def emptyColumnSchema (name : String) : ColumnSchema :=
  { name := name, type := "String", format := none, tally := []
    completeness := 0, distinctCount := 0, cardinality := 0
    uniquenessRatio := 0, isUnique := false, isPrimaryKey := false }

/-- Statistics shared by every non-empty resolver branch (lines 449-458,
535-545, 547-560, 562-573, 575-584). -/
structure CommonStats where
  nonEmpty : Nat
  distinct : Nat
  completeness : Rat
  cardinality : Rat
  topK : List (String × Nat)
  uniquenessRatio : Rat
  isUnique : Bool
  isPrimaryKey : Bool

def commonStats (totalRows : Nat) (e : Entry) : CommonStats :=
  let nonEmpty := e.nonEmptyCount
  let distinct := e.uniqueValues.length
  let completeness : Rat := if totalRows ≠ 0 then mkRat nonEmpty totalRows else 0
  let cardinality : Rat := if nonEmpty ≠ 0 then mkRat distinct nonEmpty else 0
  let topK := (sortDesc e.valueCounts).take 5
  let uniquenessRatio : Rat := if totalRows ≠ 0 then mkRat distinct totalRows else 0
  let isUnique := distinct = nonEmpty ∧ nonEmpty > 0
  let isPrimaryKey := isUnique ∧ completeness = 1
  { nonEmpty, distinct, completeness, cardinality, topK, uniquenessRatio
    isUnique := isUnique, isPrimaryKey := isPrimaryKey }

/-- Score and probably of the mixed-types branch (lines 404-447).  The
intermediate Category/Text/List/Percentage heuristics of lines 411-434 are
recomputed and *overwritten* unconditionally by the final tally recalculation
of lines 437-446 (the entry has `nonEmptyCount > 0`, hence a nonempty sorted
tally with positive total), so only that final assignment is observable. -/
def mixedScoreProbably (e : Entry) : Option Rat × Option String :=
  match sortDesc e.formatCounts with
  | [] => (none, none)  -- unreachable: nonEmptyCount > 0
  | top :: _ => (some (mkRat top.2 e.nonEmptyCount), some top.1)

/-- The mixed-base-types descriptor (lines 402-461). -/
def resolveMixed (totalRows : Nat) (name : String) (e : Entry) : ColumnSchema :=
  let sp := mixedScoreProbably e
  let cs := commonStats totalRows e
  { name := name, type := "String", format := some "mixed"
    repeating := some e.hasStringDuplicate
    score := sp.1, probably := sp.2
    tally := e.formatCounts
    completeness := cs.completeness, distinctCount := cs.distinct
    cardinality := cs.cardinality, topK := cs.topK
    uniquenessRatio := cs.uniquenessRatio
    isUnique := cs.isUnique, isPrimaryKey := cs.isPrimaryKey }

/-- Score/probably for the single-base-type branches (lines 497-533).
For non-String resolved types: score = top tally count / nonEmptyCount and
`probably` is set only when score < 1 (line 505).  For String, lines 509-531
recompute the same score but set `probably` to the top label unconditionally,
then refine it to a Categories/Zero-variance label. -/
def singleScoreProbably (resolvedType : String) (e : Entry) : Option Rat × Option String :=
  match sortDesc e.formatCounts with
  | [] => (none, none)  -- unreachable: nonEmptyCount > 0
  | top :: _ =>
    let score : Rat := mkRat top.2 e.nonEmptyCount
    if resolvedType = "String" then
      let probably :=
        if top.1 = "Text" ∧ e.hasStringDuplicate then
          if e.strSeen.length > 1 then
            if e.strSeen.length < 10 then
              "Categories: " ++ joinSep ", " e.strSeen
            else "Categories"
          else "Zero-variance column"
        else top.1
      (some score, some probably)
    else
      (some score, if score < 1 then some top.1 else none)

/-- The per-type descriptor assembly of the single-base-type branch
(lines 535-586), parameterised by the resolved type and format. -/
def resolveSingleCore (totalRows : Nat) (name : String) (e : Entry)
    (resolvedType : String) (format : Option String) : ColumnSchema :=
  let sp := singleScoreProbably resolvedType e
  let cs := commonStats totalRows e
  if resolvedType = "String" then
    { name := name, type := resolvedType, format := format
      repeating := some e.hasStringDuplicate
      score := sp.1, probably := sp.2, tally := e.formatCounts
      completeness := cs.completeness, distinctCount := cs.distinct
      cardinality := cs.cardinality, topK := cs.topK
      textStats :=
        if e.textStats.count ≠ 0 then
          some { minLen := e.textStats.minLen.getD 0
                 maxLen := e.textStats.maxLen
                 avgLen := mkRat e.textStats.sumLen e.textStats.count }
        else none
      uniquenessRatio := cs.uniquenessRatio
      isUnique := cs.isUnique, isPrimaryKey := cs.isPrimaryKey }
  else if resolvedType = "Number" then
    let ns := e.numStats
    let variance : Rat :=
      if ns.count > 1 then (ns.sumSq - ns.sum * ns.sum / (ns.count : Rat)) / ((ns.count : Rat) - 1)
      else 0
    { name := name, type := resolvedType, format := format
      sequential := some (if e.numCount ≥ 2 then e.isSequential else false)
      score := sp.1, probably := sp.2, tally := e.formatCounts
      completeness := cs.completeness, distinctCount := cs.distinct
      cardinality := cs.cardinality, topK := cs.topK
      numStats :=
        if ns.count ≠ 0 then
          some { min := ns.min.getD 0, max := ns.max.getD 0
                 mean := ns.sum / (ns.count : Rat)
                 stdevSq := if 0 ≤ variance then variance else 0 }
        else none
      uniquenessRatio := cs.uniquenessRatio
      isUnique := cs.isUnique, isPrimaryKey := cs.isPrimaryKey }
  else if resolvedType = "Date" then
    { name := name, type := resolvedType, format := format
      sequential := some (if e.numCount ≥ 2 then e.isSequential else false)
      score := sp.1, probably := sp.2, tally := e.formatCounts
      completeness := cs.completeness, distinctCount := cs.distinct
      cardinality := cs.cardinality, topK := cs.topK
      uniquenessRatio := cs.uniquenessRatio
      isUnique := cs.isUnique, isPrimaryKey := cs.isPrimaryKey }
  else
    { name := name, type := resolvedType, format := format
      score := sp.1, probably := sp.2, tally := e.formatCounts
      completeness := cs.completeness, distinctCount := cs.distinct
      cardinality := cs.cardinality, topK := cs.topK
      uniquenessRatio := cs.uniquenessRatio
      isUnique := cs.isUnique, isPrimaryKey := cs.isPrimaryKey }

/-- Resolve a single-base-type column (lines 464-586): year upgrade, date
format guessing, then the per-type descriptor. -/
def resolveSingle (rows : List Row) (totalRows : Nat) (name : String)
    (e : Entry) (onlyType : String) : ColumnSchema :=
  let fset := (lookupL e.formatsByType onlyType).getD ["__none__"]
  -- Year heuristic (lines 468-480)
  let upgraded : Bool :=
    onlyType = "Number" ∧
    ¬ fset.contains "Currency" ∧ ¬ fset.contains "Percentage" ∧ ¬ fset.contains "Float" ∧
    e.numCount > 0 ∧ e.numFourDigitCount = e.numCount ∧ e.numInRangeCount = e.numCount
  let resolvedType := if upgraded then "Date" else onlyType
  let format : Option String :=
    if resolvedType = "Date" then
      -- lines 482-487: `format = format || guessed || null`, `__mixed__` → "mixed"
      let guessed := guessColumnDateFormat rows name
      let f := if upgraded then some "%Y" else guessed
      if f = some "__mixed__" then some "mixed" else f
    else
      -- lines 488-495
      match fset with
      | [onlyFormat] => if onlyFormat = "__none__" then none else some onlyFormat
      | _ => some "mixed"
  resolveSingleCore totalRows name e resolvedType format

/-- Resolve one accumulated column (lines 392-587).  Returns `none` when the
column is dropped (`dropEmptyColumns` with no observation — unreachable,
`sawNonEmpty` is always true for accumulated entries). -/
def resolveEntry (rows : List Row) (totalRows : Nat) (dropEmptyColumns : Bool)
    (name : String) (e : Entry) : Option ColumnSchema :=
  if e.sawNonEmpty = false then
    if dropEmptyColumns then none else some (emptyColumnSchema name)
  else if e.types.length > 1 then
    some (resolveMixed totalRows name e)
  else
    match e.types with
    | [onlyType] => some (resolveSingle rows totalRows name e onlyType)
    | _ => some (emptyColumnSchema name)  -- unreachable: nonempty `types`

/-- `^-?\d+(\.\d+)?$` — the strict pattern of the `preferStringNumbers`
post-pass (line 596; no `+` sign, no currency/percent/comma tolerance). -/
def strictNumericRe (s : String) : Bool :=
  let core : List Char → Bool := fun ds =>
    let intPart := ds.takeWhile Char.isDigit
    let rest := ds.dropWhile Char.isDigit
    (!intPart.isEmpty) &&
      (match rest with
       | [] => true
       | '.' :: fr => (!fr.isEmpty) && fr.all Char.isDigit
       | _ => false)
  match s.data with
  | '-' :: rest => core rest
  | l => core l

/-- Is every raw value of the column empty or strictly numeric (lines 593-597)?
`val == null` covers both an absent key and a null value. -/
def allNumericCol (rows : List Row) (name : String) : Bool :=
  rows.all (fun row =>
    match lookupL row name with
    | none => true
    | some .vNull => true
    | some v => jsToString v = "" ∨ strictNumericRe (jsToString v))

/-- The `preferStringNumbers` post-pass (lines 589-604): downgrade any Number
column whose raw values are not all empty-or-strictly-numeric. -/
def postPass (prefer : Bool) (rows : List Row) (results : List ColumnSchema) :
    List ColumnSchema :=
  if prefer then
    results.map (fun r =>
      if r.type = "Number" ∧ ¬ allNumericCol rows r.name then
        { r with type := "String", format := some "mixed" }
      else r)
  else results

/-- Options of `getSchema`/`dataFormat` (defaults as in the source).
`sanitizeKeys` is not modelled (see above). -/
structure Options where
  preferStringNumbers : Bool := false
  dropEmptyColumns : Bool := false
  numberEmptyAsNull : Bool := true
deriving DecidableEq, Repr

/-- The schema pipeline over object rows with an explicit total row count
(`totalRows = rows.length` counts *all* dataset entries, including non-object
ones — line 226). -/
def getSchemaWith (rows : List Row) (totalRows : Nat) (opts : Options) :
    List ColumnSchema :=
  let acc := accumulate opts.preferStringNumbers rows
  let results := acc.filterMap (fun p =>
    resolveEntry rows totalRows opts.dropEmptyColumns p.1 p.2)
  postPass opts.preferStringNumbers rows results

/-- `getSchema` over an array of object rows (the array branch of line 225). -/
def getSchema (rows : List Row) (opts : Options := {}) : List ColumnSchema :=
  getSchemaWith rows rows.length opts

/-! ### `getSchema` over raw dataset entries (error behaviour)

The source computes `totalRows = rows.length` over *all* entries (line 226),
skips non-object entries during accumulation (line 252), but passes the raw
`rows` array to `guessColumnDateFormat`, whose unguarded `row[columnName]`
read (line 746) throws `TypeError` on a `null`/`undefined` entry.  The
`preferStringNumbers` post-pass also reads `row[r.name]` (line 594), but only
for columns resolved as Number, which cannot exist under
`preferStringNumbers` (proved below as `getSchema_prefer_no_number`), so it
is modelled over object rows only, like the pure `postPass`. -/

/-- Resolve one column against the raw entry list: the Date branch consults
`guessColumnDateFormatE`, which can throw. -/
def resolveEntryE (entries : List RowEntry) (totalRows : Nat)
    (dropEmptyColumns : Bool) (name : String) (e : Entry) :
    Except JsError (Option ColumnSchema) := do
  if e.sawNonEmpty = false then
    if dropEmptyColumns then pure none else pure (some (emptyColumnSchema name))
  else if e.types.length > 1 then
    pure (some (resolveMixed totalRows name e))
  else
    match e.types with
    | [onlyType] =>
      let eTmp := resolveSingle (objsOf entries) totalRows name e onlyType
      -- the Date branch of `resolveSingle` reads `guessColumnDateFormat`;
      -- re-run the raw-entries version to surface its TypeError
      if eTmp.type = "Date" then
        let _ ← guessColumnDateFormatE entries name
        pure (some eTmp)
      else pure (some eTmp)
    | _ => pure (some (emptyColumnSchema name))

/-- `results.push(...)` for a resolved (non-dropped) column. -/
def appendResolved (results : List ColumnSchema) (r : Option ColumnSchema) :
    List ColumnSchema :=
  match r with
  | some col => results ++ [col]
  | none => results

/-- `getSchema(jsonData, options)` on an array containing arbitrary entries. -/
def getSchemaE (entries : List RowEntry) (opts : Options := {}) :
    Except JsError (List ColumnSchema) := do
  let totalRows := entries.length
  let rows := objsOf entries
  let acc := accumulate opts.preferStringNumbers rows
  let results ← acc.foldlM (fun results p => do
    let r ← resolveEntryE entries totalRows opts.dropEmptyColumns p.1 p.2
    pure (appendResolved results r)) ([] : List ColumnSchema)
  pure (postPass opts.preferStringNumbers rows results)

/-! ### `dataFormat` (source lines 96-125) -/

/-- JS property assignment `obj[k] = v`: overwrite in place or append. -/
def objSet (row : Row) (k : String) (v : JSValue) : Row :=
  if row.any (fun p => p.1 = k) then
    row.map (fun p => if p.1 = k then (k, v) else p)
  else row ++ [(k, v)]

/-- `dataFormat(dataset, options)` over object rows: re-infer the schema, then
coerce Number columns via `normalizeNumber` (empty-as-null policy
`numberEmptyAsNull`, default `true`), Boolean columns via `normalizeBoolean`,
and copy every other column unchanged.  With `dropEmptyColumns` the output row
starts empty, otherwise as a copy of the source row.  (`byName` maps each
schema column name to its descriptor; schema names are pairwise distinct, so
iterating `byName` is iterating the schema in order.)
The per-cell coercion (lines 113-121): Number columns through the
normalizer with the `numberEmptyAsNull` policy, Boolean columns through the
boolean normalizer, everything else copied. -/
def formatCell (options : Options) (col : ColumnSchema) (val : JSValue) : JSValue :=
  if col.type = "Number" then normalizeNumber val options.numberEmptyAsNull
  else if col.type = "Boolean" then normalizeBoolean val
  else val

/-- One column's write into the output row (lines 109-121); a missing source
key is the `hasOwnProperty` skip of line 111. -/
def formatRowStep (options : Options) (src : Row) (dst : Row) (col : ColumnSchema) : Row :=
  match lookupL src col.name with
  | none => dst
  | some val => objSet dst col.name (formatCell options col val)

def dataFormat (dataset : List Row) (options : Options := {}) : List Row :=
  let schema := getSchema dataset options
  dataset.map (fun src =>
    schema.foldl (formatRowStep options src)
      (if options.dropEmptyColumns then ([] : Row) else src))

/-! ### `toJSONSchema` (source lines 617-675) -/

/-- One property schema of the emitted JSON Schema object. -/
structure PropSchema where
  type : String
  minimum : Option Rat := none
  maximum : Option Rat := none
  pattern : Option String := none
  format : Option String := none
  minLength : Option Nat := none
  maxLength : Option Nat := none
deriving DecidableEq, Repr

/-- The emitted JSON Schema document (`$schema` and `type` are constants). -/
structure JsonSchemaOut where
  properties : List (String × PropSchema)
  required : Option (List String)
deriving DecidableEq, Repr

/-- Does `fmt` match the line-646 regex `%Y`, dash-or-slash, `%m`,
dash-or-slash, `%d` (anchored)? -/
def isDateOnlyFormat (fmt : String) : Bool :=
  fmt = "%Y-%m-%d" ∨ fmt = "%Y/%m/%d" ∨ fmt = "%Y-%m/%d" ∨ fmt = "%Y/%m-%d"

/-- Does `fmt` contain `%H` or `%I` (line 648)? -/
def hasHourToken (fmt : String) : Bool :=
  containsSubstr "%H" fmt ∨ containsSubstr "%I" fmt

/-- Build one column's property schema (lines 627-661).  `numStats` and
`textStats`, when present, always carry finite fields in the model (they are
only emitted for nonzero observation counts), so the `Number.isFinite`
guards always pass. -/
def colToProp (col : ColumnSchema) : PropSchema :=
  if col.type = "Number" then
    let base : PropSchema :=
      { type := if col.format = some "Integer" then "integer" else "number" }
    match col.numStats with
    | some ns => { base with minimum := some ns.min, maximum := some ns.max }
    | none => base
  else if col.type = "Boolean" then
    { type := "boolean" }
  else if col.type = "Date" then
    let base : PropSchema := { type := "string" }
    match col.format with
    | some fmt =>
      if fmt = "%Y" then { base with pattern := some "^(?:18|19|20|21)\\d\x7b2\x7d$" }
      else if isDateOnlyFormat fmt then { base with format := some "date" }
      else if hasHourToken fmt then { base with format := some "date-time" }
      else base
    | none => base
  else
    let base : PropSchema := { type := "string" }
    let base :=
      if col.format = some "Financial year" then
        { base with pattern := some "^(?:19|20)\\d\x7b2\x7d[-–]\\d\x7b2\x7d$" }
      else base
    match col.textStats with
    | some ts => { base with minLength := some ts.minLen, maxLength := some ts.maxLen }
    | none => base

/-- Assemble the JSON Schema from descriptors (lines 623-674): `properties`
keyed by column name (JS object assignment), `required` = columns with
`completeness === 1`, and the `required` key deleted when empty. -/
def buildJSONSchema (schema : List ColumnSchema) : JsonSchemaOut :=
  let pairs := schema.map (fun col => (col.name, colToProp col))
  let properties := pairs.foldl (fun props p =>
    if props.any (fun q => q.1 = p.1) then
      props.map (fun q => if q.1 = p.1 then p else q)
    else props ++ [p]) ([] : List (String × PropSchema))
  let required := (schema.filter (fun col => col.completeness = 1)).map (fun col => col.name)
  { properties := properties
    required := if required.isEmpty then none else some required }

/-- Input of `toJSONSchema`: raw rows or ready descriptors. -/
inductive ToJSONInput where
  | rows : List Row → ToJSONInput
  | descriptors : List ColumnSchema → ToJSONInput

/-- JS property-key coercion for `properties[col.name]` in the misinterpreted
branch: strings stay, other values go through `String(...)`, an absent field
gives the key `"undefined"`. -/
def jsPropKey (v : Option JSValue) : String :=
  match v with
  | none => "undefined"
  | some (.vStr s) => s
  | some v => jsToString v

/-- Read a raw row *as if* it were a ColumnSchema — what the source does when
its raw-rows detection fails (a first row containing a key `name`).  Missing
fields are JS `undefined`: every `===` comparison against them is false,
which the defaults below reproduce; object-valued stats cannot occur in the
scalar cell model, so `numStats`/`textStats` are `none`. -/
def rowAsColumnSchema (r : Row) : ColumnSchema :=
  { name := jsPropKey (lookupL r "name")
    type := (match lookupL r "type" with | some (.vStr s) => s | _ => "")
    format := (match lookupL r "format" with | some (.vStr s) => some s | _ => none)
    completeness := (match lookupL r "completeness" with | some (.vNum q) => q | _ => 0) }

/-- `toJSONSchema(input, options)` (lines 617-675).  The raw-rows detection of
line 619 requires a nonempty array whose first element is an object *without*
a `name` key; otherwise the input is used as descriptors directly (for
`.rows`, by reading each row as a descriptor). -/
def toJSONSchema (input : ToJSONInput) (opts : Options := {}) : JsonSchemaOut :=
  match input with
  | .descriptors cs => buildJSONSchema cs
  | .rows rs =>
    match rs with
    | [] => buildJSONSchema ((rs : List Row).map rowAsColumnSchema)
    | r0 :: _ =>
      if r0.any (fun p => p.1 = "name") then
        buildJSONSchema (rs.map rowAsColumnSchema)
      else
        buildJSONSchema (getSchema rs opts)

/-! ## Lemma layer

### Per-column view of the accumulator

`accumulate` interleaves all columns in one pass over the rows; the claims are
per-column, so we first show that the entry stored under a name equals a fold
over just that column's cells. -/

/-- The cells of one column, in row order. -/
def columnCells (rows : List Row) (name : String) : List JSValue :=
  rows.flatMap (fun r => (r.filter (fun c => c.1 = name)).map (fun c => c.2))

/-- The classified (non-empty) observations among a list of cells. -/
def colObs (p : Bool) (cells : List JSValue) : List (TF × JSValue) :=
  cells.filterMap (fun v => (detectTypeAndFormat v p).map (fun tf => (tf, v)))

/-- Fold observations into an entry. -/
def entryFold (e : Entry) (l : List (TF × JSValue)) : Entry :=
  l.foldl (fun e ov => accumCell e ov.1 ov.2) e

/-- Fold observations into an optional entry, creating it on first use. -/
def optFold (st : Option Entry) (l : List (TF × JSValue)) : Option Entry :=
  l.foldl (fun st ov => some (accumCell (st.getD {}) ov.1 ov.2)) st

/-- The accumulator entry a column's cells give rise to (`none` when nothing
classifies). -/
def accumColumn (p : Bool) (cells : List JSValue) : Option Entry :=
  optFold none (colObs p cells)

/-- The cells of one row that belong to a column. -/
def rowCells (row : Row) (name : String) : List JSValue :=
  (row.filter (fun c => c.1 = name)).map (fun c => c.2)

/-- The key (if any) a classified cell contributes to `valueCounts`:
String-typed observations contribute their trimmed raw string (lines 331-333),
Number-typed observations the canonical `String(parsedNumber)` (lines 364-365);
Boolean- and Date-typed observations contribute nothing. -/
def cellValueKey (tf : TF) (v : JSValue) : Option String :=
  if tf.type = "String" then
    match v with
    | .vNull => none
    | _ => let s := jsTrim (jsToString v); if s = "" then none else some s
  else if tf.type = "Number" then
    match normalizeNumber v false with
    | .vNum n => some (jsNumberToString n)
    | _ => none
  else none

/-- The parsed numeric value a Number-typed observation contributes. -/
def numValOf (tf : TF) (v : JSValue) : Option Rat :=
  if tf.type = "Number" then
    match normalizeNumber v false with
    | .vNum n => some n
    | _ => none
  else none

/-- Tally of format labels over an observation list. -/
def tallyOfObs (l : List (TF × JSValue)) : List (String × Nat) :=
  l.foldl (fun m ov => bumpCount m (labelOf ov.1)) []

/-- Observed base types, in encounter order, deduplicated. -/
def typesOfObs (l : List (TF × JSValue)) : List String :=
  l.foldl (fun t ov => addIfNew t ov.1.type) []

/-- Observed formats by base type. -/
def formatsOfObs (l : List (TF × JSValue)) : List (String × List String) :=
  l.foldl (fun m ov => fbtAdd m ov.1.type (ov.1.format.getD "__none__")) []

/-- Distinct value keys over an observation list. -/
def uniquesOfObs (l : List (TF × JSValue)) : List String :=
  l.foldl (fun u ov =>
    if distinctKeyOf ov.2 ≠ "" then addIfNew u (distinctKeyOf ov.2) else u) []

/-- Value counts over an observation list (String/Number observations only). -/
def valueCountsOfObs (l : List (TF × JSValue)) : List (String × Nat) :=
  l.foldl (fun m ov =>
    match cellValueKey ov.1 ov.2 with
    | some k => bumpCount m k
    | none => m) []

/-- The parsed numeric observations, in order. -/
def numericObs (l : List (TF × JSValue)) : List Rat :=
  l.filterMap (fun ov => numValOf ov.1 ov.2)

/-- "Strictly sequential": successive elements differ by exactly 1. -/
def chainSucc : List Rat → Bool
  | [] => true
  | [_] => true
  | a :: b :: rest => (subQ b a = 1) && chainSucc (b :: rest)

/-- The sequencing state of the source: last number seen, sequential flag,
numeric count — updated per numeric observation exactly as `numberUpdate`. -/
def seqFoldJS : (Option Rat × Bool × Nat) → List Rat → (Option Rat × Bool × Nat)
  | st, [] => st
  | (last, ok, cnt), n :: ns =>
    seqFoldJS (some n,
      (if cnt = 0 then ok
       else if (match last with
           | some l0 => subQ n l0 ≠ 1
           | none => false : Bool) then false
       else ok),
      cnt + 1) ns

/-- The maximum count in a tally. -/
def maxCount (l : List (String × Nat)) : Nat :=
  (l.map (fun p => p.2)).foldr Nat.max 0

/-- Keys of a counter list are pairwise distinct. -/
def KeysND (l : List (String × Nat)) : Prop := (l.map (fun p => p.1)).Nodup

/-- Concrete dataset and its (string-typed) descriptor for the C3 witness. -/
def C3rows : List Row := [[("a", .vStr "x")], [("a", .vStr "y")]]

def C3col : ColumnSchema :=
  { name := "a", type := "String", format := some "Text", repeating := some false
    score := some 1, probably := some "Text", tally := [("Text", 2)]
    completeness := 1, distinctCount := 2, cardinality := 1
    topK := [("x", 1), ("y", 1)]
    textStats := some { minLen := 1, maxLen := 1, avgLen := 1 }
    uniquenessRatio := 1, isUnique := true, isPrimaryKey := true }

/-- Concrete dataset and (year-upgraded Date) descriptor for the C5 witness:
score 1, hence no `probably`, on a non-String column. -/
def C5rows : List Row := [[("y", .vStr "1999")], [("y", .vStr "2000")]]

def C5col : ColumnSchema :=
  { name := "y", type := "Date", format := some "%Y", sequential := some true
    score := some 1, tally := [("Integer", 2)]
    completeness := 1, distinctCount := 2, cardinality := 1
    topK := [("1999", 1), ("2000", 1)]
    uniquenessRatio := 1, isUnique := true, isPrimaryKey := true }

/-- Concrete dataset and descriptor for the C4 witness: one Boolean and one
Text observation in the same column. -/
def C4rows : List Row := [[("m", .vStr "true")], [("m", .vStr "hi")]]

def C4col : ColumnSchema :=
  { name := "m", type := "String", format := some "mixed"
    repeating := some false
    score := some (mkRat 1 2), probably := some "Boolean"
    tally := [("Boolean", 1), ("Text", 1)]
    completeness := 1, distinctCount := 2, cardinality := 1
    topK := [("hi", 1)]
    uniquenessRatio := 1, isUnique := true, isPrimaryKey := true }

/-- Concrete dataset and descriptor for the C2 witness: three consecutive
year strings. -/
def C2rows : List Row :=
  [[("y", .vStr "1999")], [("y", .vStr "2000")], [("y", .vStr "2001")]]

def C2col : ColumnSchema :=
  { name := "y", type := "Date", format := some "%Y", sequential := some true
    score := some 1, tally := [("Integer", 3)]
    completeness := 1, distinctCount := 3, cardinality := 1
    topK := [("1999", 1), ("2000", 1), ("2001", 1)]
    uniquenessRatio := 1, isUnique := true, isPrimaryKey := true }

/-- Concrete entry list for the C8 witness: two object rows around a skipped
primitive entry. -/
def C8entries : List RowEntry :=
  [.obj [("b", .vStr "hi")], .prim, .obj [("b", .vStr "yo")]]

/-- Concrete dataset and descriptor for the C7 witness. -/
def C7rows : List Row := [[("t", .vStr "x")], [("t", .vStr "y")]]

def C7col : ColumnSchema :=
  { name := "t", type := "String", format := some "Text", repeating := some false
    score := some 1, probably := some "Text", tally := [("Text", 2)]
    completeness := 1, distinctCount := 2, cardinality := 1
    topK := [("x", 1), ("y", 1)]
    textStats := some { minLen := 1, maxLen := 1, avgLen := 1 }
    uniquenessRatio := 1, isUnique := true, isPrimaryKey := true }

theorem optFold_append (st : Option Entry) (l1 l2 : List (TF × JSValue)) :
    optFold st (l1 ++ l2) = optFold (optFold st l1) l2 := by
  simp [optFold, List.foldl_append]

theorem optFold_some (e : Entry) (l : List (TF × JSValue)) :
    optFold (some e) l = some (entryFold e l) := by
  induction l generalizing e with
  | nil => rfl
  | cons o os ih => simp [optFold, entryFold, List.foldl_cons] at ih ⊢; exact ih _

theorem lookupL_nil {α : Type} (k : String) : lookupL ([] : List (String × α)) k = none := rfl

theorem lookupL_cons {α : Type} (p : String × α) (l : List (String × α)) (k : String) :
    lookupL (p :: l) k = if p.1 = k then some p.2 else lookupL l k := by
  by_cases h : p.1 = k <;> simp [lookupL, List.find?_cons, h]

theorem lookupL_append_left {α : Type} (l1 l2 : List (String × α)) (k : String)
    (h : lookupL l1 k = none) : lookupL (l1 ++ l2) k = lookupL l2 k := by
  induction l1 with
  | nil => simp
  | cons hd tl ih =>
    rw [List.cons_append, lookupL_cons] at *
    by_cases hk : hd.1 = k
    · simp [hk] at h
    · simp [hk] at h ⊢; exact ih h

/-- A key is present iff `any` finds it. -/
theorem any_key_iff {α : Type} (l : List (String × α)) (k : String) :
    l.any (fun p => p.1 = k) = true ↔ (lookupL l k).isSome := by
  induction l with
  | nil => simp [lookupL]
  | cons hd tl ih =>
    rw [lookupL_cons]
    by_cases h : hd.1 = k <;> simp [h, ih]

theorem lookupL_map_update {α : Type} (l : List (String × α)) (k : String) (g : α → α) :
    lookupL (l.map (fun p => if p.1 = k then (p.1, g p.2) else p)) k
      = (lookupL l k).map g := by
  induction l with
  | nil => rfl
  | cons hd tl ih =>
    by_cases h : hd.1 = k
    · simp [lookupL_cons, h, List.map_cons]
    · simp only [List.map_cons, h, if_false]
      rw [lookupL_cons, lookupL_cons]
      simp [h, ih]

theorem lookupL_map_update_ne {α : Type} (l : List (String × α)) (k n : String)
    (g : α → α) (h : k ≠ n) :
    lookupL (l.map (fun p => if p.1 = k then (p.1, g p.2) else p)) n = lookupL l n := by
  induction l with
  | nil => rfl
  | cons hd tl ih =>
    by_cases hk : hd.1 = k
    · simp only [List.map_cons, hk, if_true]
      rw [lookupL_cons, lookupL_cons]
      simp only [hk]
      simp [h, ih]
    · simp only [List.map_cons, hk, if_false]
      rw [lookupL_cons, lookupL_cons]
      by_cases hn : hd.1 = n <;> simp [hn, ih]

theorem lookupL_append_single_ne {α : Type} (l : List (String × α)) (k n : String)
    (x : α) (h : k ≠ n) : lookupL (l ++ [(k, x)]) n = lookupL l n := by
  induction l with
  | nil => simp [lookupL_cons, h]
  | cons hd tl ih =>
    rw [List.cons_append, lookupL_cons, lookupL_cons]
    by_cases hn : hd.1 = n <;> simp [hn, ih]

theorem lookupL_accBump_self (acc : AccMap) (n : String) (g : Entry → Entry) :
    lookupL (accBump acc n g) n = some (g ((lookupL acc n).getD {})) := by
  unfold accBump
  by_cases h : acc.any (fun p => p.1 = n)
  · rw [if_pos h, lookupL_map_update]
    rcases hs : lookupL acc n with _ | e
    · rw [any_key_iff] at h; rw [hs] at h; simp at h
    · simp
  · have hnone : lookupL acc n = none := by
      rcases hs : lookupL acc n with _ | e
      · rfl
      · exfalso; apply h; rw [any_key_iff, hs]; rfl
    rw [if_neg h, lookupL_append_left _ _ _ hnone, lookupL_cons]
    simp [hnone]

theorem lookupL_accBump_ne (acc : AccMap) (k n : String) (g : Entry → Entry)
    (h : k ≠ n) : lookupL (accBump acc k g) n = lookupL acc n := by
  unfold accBump
  by_cases hp : acc.any (fun p => p.1 = k)
  · rw [if_pos hp]; exact lookupL_map_update_ne _ _ _ _ h
  · rw [if_neg hp]; exact lookupL_append_single_ne _ _ _ _ h

theorem lookup_accumRow (p : Bool) (acc : AccMap) (row : Row) (name : String) :
    lookupL (accumRow p acc row) name
      = optFold (lookupL acc name) (colObs p (rowCells row name)) := by
  induction row generalizing acc with
  | nil => rfl
  | cons cell rest ih =>
    rcases hd : detectTypeAndFormat cell.2 p with _ | tf
    · have hrow : accumRow p acc (cell :: rest) = accumRow p acc rest := by
        simp only [accumRow, List.foldl_cons, hd]
      by_cases hk : cell.1 = name
      · have hrc : rowCells (cell :: rest) name = cell.2 :: rowCells rest name := by
          simp [rowCells, List.filter_cons, hk]
        have hobs : colObs p (cell.2 :: rowCells rest name)
            = colObs p (rowCells rest name) := by
          simp [colObs, List.filterMap_cons, hd]
        rw [hrow, hrc, hobs]; exact ih acc
      · have hrc : rowCells (cell :: rest) name = rowCells rest name := by
          simp [rowCells, List.filter_cons, hk]
        rw [hrow, hrc]; exact ih acc
    · have hrow : accumRow p acc (cell :: rest)
          = accumRow p (accBump acc cell.1 (fun e => accumCell e tf cell.2)) rest := by
        simp only [accumRow, List.foldl_cons, hd]
      by_cases hk : cell.1 = name
      · have hrc : rowCells (cell :: rest) name = cell.2 :: rowCells rest name := by
          simp [rowCells, List.filter_cons, hk]
        have hobs : colObs p (cell.2 :: rowCells rest name)
            = (tf, cell.2) :: colObs p (rowCells rest name) := by
          simp [colObs, List.filterMap_cons, hd]
        rw [hrow, hrc, hobs, ih, hk, lookupL_accBump_self]
        simp [optFold, List.foldl_cons]
      · have hrc : rowCells (cell :: rest) name = rowCells rest name := by
          simp [rowCells, List.filter_cons, hk]
        rw [hrow, hrc, ih, lookupL_accBump_ne _ _ _ _ hk]

theorem colObs_append (p : Bool) (c1 c2 : List JSValue) :
    colObs p (c1 ++ c2) = colObs p c1 ++ colObs p c2 := by
  simp [colObs, List.filterMap_append]

theorem columnCells_cons (row : Row) (rows : List Row) (name : String) :
    columnCells (row :: rows) name = rowCells row name ++ columnCells rows name := by
  simp [columnCells, rowCells, List.flatMap_cons]

/-- Per-column projection of the whole accumulation pass. -/
theorem lookup_accumulate (p : Bool) (rows : List Row) (name : String) :
    lookupL (accumulate p rows) name = accumColumn p (columnCells rows name) := by
  unfold accumColumn
  suffices h : ∀ acc, lookupL (rows.foldl (accumRow p) acc) name
      = optFold (lookupL acc name) (colObs p (columnCells rows name)) by
    simpa [accumulate] using h []
  induction rows with
  | nil => intro acc; simp [columnCells, colObs, optFold]
  | cons row rest ih =>
    intro acc
    rw [List.foldl_cons, ih, columnCells_cons, colObs_append, optFold_append,
      lookup_accumRow]

/-! ### Field-level view of one accumulation step -/

theorem stringUpdate_keeps (e : Entry) (tf : TF) (v : JSValue) :
    (stringUpdate e tf v).formatCounts = e.formatCounts ∧
    (stringUpdate e tf v).types = e.types ∧
    (stringUpdate e tf v).formatsByType = e.formatsByType ∧
    (stringUpdate e tf v).sawNonEmpty = e.sawNonEmpty ∧
    (stringUpdate e tf v).nonEmptyCount = e.nonEmptyCount ∧
    (stringUpdate e tf v).uniqueValues = e.uniqueValues ∧
    (stringUpdate e tf v).numCount = e.numCount ∧
    (stringUpdate e tf v).lastNum = e.lastNum ∧
    (stringUpdate e tf v).isSequential = e.isSequential ∧
    (stringUpdate e tf v).numFourDigitCount = e.numFourDigitCount ∧
    (stringUpdate e tf v).numInRangeCount = e.numInRangeCount := by
  unfold stringUpdate
  rcases v with _ | b | q | s <;> dsimp only <;> try exact ⟨rfl, rfl, rfl, rfl, rfl, rfl, rfl, rfl, rfl, rfl, rfl⟩
  all_goals (split <;> exact ⟨rfl, rfl, rfl, rfl, rfl, rfl, rfl, rfl, rfl, rfl, rfl⟩)

theorem numberUpdate_keeps (e : Entry) (v : JSValue) :
    (numberUpdate e v).formatCounts = e.formatCounts ∧
    (numberUpdate e v).types = e.types ∧
    (numberUpdate e v).formatsByType = e.formatsByType ∧
    (numberUpdate e v).sawNonEmpty = e.sawNonEmpty ∧
    (numberUpdate e v).nonEmptyCount = e.nonEmptyCount ∧
    (numberUpdate e v).uniqueValues = e.uniqueValues := by
  unfold numberUpdate
  rcases normalizeNumber v false with _ | b | q | s <;>
    exact ⟨rfl, rfl, rfl, rfl, rfl, rfl⟩

theorem stringUpdate_numCount (e : Entry) (tf : TF) (v : JSValue) :
    (stringUpdate e tf v).numCount = e.numCount :=
  (stringUpdate_keeps e tf v).2.2.2.2.2.2.1

theorem stringUpdate_lastNum (e : Entry) (tf : TF) (v : JSValue) :
    (stringUpdate e tf v).lastNum = e.lastNum :=
  (stringUpdate_keeps e tf v).2.2.2.2.2.2.2.1

theorem stringUpdate_isSequential (e : Entry) (tf : TF) (v : JSValue) :
    (stringUpdate e tf v).isSequential = e.isSequential :=
  (stringUpdate_keeps e tf v).2.2.2.2.2.2.2.2.1

theorem stringUpdate_numFourDigitCount (e : Entry) (tf : TF) (v : JSValue) :
    (stringUpdate e tf v).numFourDigitCount = e.numFourDigitCount :=
  (stringUpdate_keeps e tf v).2.2.2.2.2.2.2.2.2.1

theorem stringUpdate_numInRangeCount (e : Entry) (tf : TF) (v : JSValue) :
    (stringUpdate e tf v).numInRangeCount = e.numInRangeCount :=
  (stringUpdate_keeps e tf v).2.2.2.2.2.2.2.2.2.2

/-- `valueCounts` after the string branch. -/
theorem stringUpdate_valueCounts (e : Entry) (tf : TF) (v : JSValue) :
    (stringUpdate e tf v).valueCounts =
      (match v with
       | .vNull => e.valueCounts
       | _ =>
         if jsTrim (jsToString v) = "" then e.valueCounts
         else bumpCount e.valueCounts (jsTrim (jsToString v))) := by
  unfold stringUpdate
  rcases v with _ | b | q | s <;> dsimp only <;> split <;> rfl

/-- `valueCounts` after the number branch. -/
theorem numberUpdate_valueCounts (e : Entry) (v : JSValue) :
    (numberUpdate e v).valueCounts =
      (match normalizeNumber v false with
       | .vNum n => bumpCount e.valueCounts (jsNumberToString n)
       | _ => e.valueCounts) := by
  unfold numberUpdate
  rcases normalizeNumber v false with _ | b | q | s <;> rfl

theorem numberUpdate_numFields (e : Entry) (v : JSValue) :
    ((numberUpdate e v).numCount, (numberUpdate e v).lastNum,
      (numberUpdate e v).isSequential, (numberUpdate e v).numFourDigitCount,
      (numberUpdate e v).numInRangeCount) =
      (match normalizeNumber v false with
       | .vNum n =>
         (e.numCount + 1, some n,
           (if e.numCount = 0 then e.isSequential
            else if (match e.lastNum with
                | some last => subQ n last ≠ 1
                | none => false : Bool) then false
            else e.isSequential),
           (if n.den = 1 ∧ 1000 ≤ n ∧ n ≤ 9999 then e.numFourDigitCount + 1
            else e.numFourDigitCount),
           (if n.den = 1 ∧ 1800 ≤ n ∧ n ≤ 2100 then e.numInRangeCount + 1
            else e.numInRangeCount))
       | _ => (e.numCount, e.lastNum, e.isSequential, e.numFourDigitCount,
           e.numInRangeCount)) := by
  unfold numberUpdate
  rcases normalizeNumber v false with _ | b | q | s <;> rfl

/-- A cell's classification types are never both String and Number. -/
theorem accumCell_core (e : Entry) (tf : TF) (v : JSValue) :
    (accumCell e tf v).sawNonEmpty = true ∧
    (accumCell e tf v).types = addIfNew e.types tf.type ∧
    (accumCell e tf v).formatsByType = fbtAdd e.formatsByType tf.type (tf.format.getD "__none__") ∧
    (accumCell e tf v).nonEmptyCount = e.nonEmptyCount + 1 ∧
    (accumCell e tf v).formatCounts = bumpCount e.formatCounts (labelOf tf) ∧
    (accumCell e tf v).uniqueValues =
      (if distinctKeyOf v ≠ "" then addIfNew e.uniqueValues (distinctKeyOf v)
       else e.uniqueValues) := by
  unfold accumCell
  by_cases h1 : tf.type = "String" <;> by_cases h2 : tf.type = "Number" <;>
    by_cases h3 : distinctKeyOf v ≠ "" <;>
    simp [h1, h2, h3, stringUpdate_keeps, numberUpdate_keeps,
      (stringUpdate_keeps _ tf v).1, (numberUpdate_keeps _ v).1]

theorem type_not_string_number (tf : TF) (h1 : tf.type = "String") :
    ¬ tf.type = "Number" := by
  rw [h1]; decide

theorem accumCell_valueCounts (e : Entry) (tf : TF) (v : JSValue) :
    (accumCell e tf v).valueCounts =
      (match cellValueKey tf v with
       | some k => bumpCount e.valueCounts k
       | none => e.valueCounts) := by
  by_cases h1 : tf.type = "String"
  · have h2 := type_not_string_number tf h1
    by_cases h3 : distinctKeyOf v = "" <;>
      rcases v with _ | b | q | s <;>
      simp [accumCell, cellValueKey, h1, h2, h3, stringUpdate_valueCounts] <;>
      (split <;> simp)
  · by_cases h2 : tf.type = "Number"
    · by_cases h3 : distinctKeyOf v = "" <;>
        simp [accumCell, cellValueKey, h1, h2, h3, numberUpdate_valueCounts] <;>
        rcases hn : normalizeNumber v false with _ | b | q | s <;> simp [hn]
    · by_cases h3 : distinctKeyOf v = "" <;>
        simp [accumCell, cellValueKey, h1, h2, h3]

theorem accumCell_numFields (e : Entry) (tf : TF) (v : JSValue) :
    ((accumCell e tf v).numCount, (accumCell e tf v).lastNum,
      (accumCell e tf v).isSequential, (accumCell e tf v).numFourDigitCount,
      (accumCell e tf v).numInRangeCount) =
      (match numValOf tf v with
       | some n =>
         (e.numCount + 1, some n,
           (if e.numCount = 0 then e.isSequential
            else if (match e.lastNum with
                | some last => subQ n last ≠ 1
                | none => false : Bool) then false
            else e.isSequential),
           (if n.den = 1 ∧ 1000 ≤ n ∧ n ≤ 9999 then e.numFourDigitCount + 1
            else e.numFourDigitCount),
           (if n.den = 1 ∧ 1800 ≤ n ∧ n ≤ 2100 then e.numInRangeCount + 1
            else e.numInRangeCount))
       | none => (e.numCount, e.lastNum, e.isSequential, e.numFourDigitCount,
           e.numInRangeCount)) := by
  by_cases h1 : tf.type = "String"
  · have h2 := type_not_string_number tf h1
    by_cases h3 : distinctKeyOf v = "" <;>
      simp [accumCell, numValOf, h1, h2, h3, stringUpdate_numCount, stringUpdate_lastNum,
        stringUpdate_isSequential, stringUpdate_numFourDigitCount, stringUpdate_numInRangeCount]
  · by_cases h2 : tf.type = "Number"
    · by_cases h3 : distinctKeyOf v = "" <;>
        simp only [accumCell, numValOf, h1, h2, h3] <;>
        rcases hn : normalizeNumber v false with _ | b | q | s <;>
        simp [numberUpdate, hn, h1, h2, h3]
    · by_cases h3 : distinctKeyOf v = "" <;>
        simp [accumCell, numValOf, h1, h2, h3]

/-! ### Whole-column characterisation of the accumulator fields -/

theorem entryFold_nonEmptyCount (l : List (TF × JSValue)) : ∀ e : Entry,
    (entryFold e l).nonEmptyCount = e.nonEmptyCount + l.length := by
  induction l with
  | nil => intro e; simp [entryFold]
  | cons ov os ih =>
    intro e
    show (entryFold (accumCell e ov.1 ov.2) os).nonEmptyCount = _
    rw [ih, (accumCell_core e ov.1 ov.2).2.2.2.1]
    simp [List.length_cons]; omega

theorem entryFold_sawNonEmpty (l : List (TF × JSValue)) (e : Entry)
    (h : e.sawNonEmpty = true) : (entryFold e l).sawNonEmpty = true := by
  induction l generalizing e with
  | nil => exact h
  | cons ov os ih =>
    show (entryFold (accumCell e ov.1 ov.2) os).sawNonEmpty = true
    exact ih _ (accumCell_core e ov.1 ov.2).1

theorem entryFold_sawNonEmpty_cons (ov : TF × JSValue) (os : List (TF × JSValue)) :
    (entryFold (accumCell {} ov.1 ov.2) os).sawNonEmpty = true :=
  entryFold_sawNonEmpty os _ (accumCell_core {} ov.1 ov.2).1

theorem entryFold_formatCounts (l : List (TF × JSValue)) : ∀ e : Entry,
    (entryFold e l).formatCounts
      = l.foldl (fun m ov => bumpCount m (labelOf ov.1)) e.formatCounts := by
  induction l with
  | nil => intro e; rfl
  | cons ov os ih =>
    intro e
    show (entryFold (accumCell e ov.1 ov.2) os).formatCounts = _
    rw [ih, (accumCell_core e ov.1 ov.2).2.2.2.2.1, List.foldl_cons]

theorem entryFold_types (l : List (TF × JSValue)) : ∀ e : Entry,
    (entryFold e l).types = l.foldl (fun t ov => addIfNew t ov.1.type) e.types := by
  induction l with
  | nil => intro e; rfl
  | cons ov os ih =>
    intro e
    show (entryFold (accumCell e ov.1 ov.2) os).types = _
    rw [ih, (accumCell_core e ov.1 ov.2).2.1, List.foldl_cons]

theorem entryFold_formatsByType (l : List (TF × JSValue)) : ∀ e : Entry,
    (entryFold e l).formatsByType
      = l.foldl (fun m ov => fbtAdd m ov.1.type (ov.1.format.getD "__none__"))
          e.formatsByType := by
  induction l with
  | nil => intro e; rfl
  | cons ov os ih =>
    intro e
    show (entryFold (accumCell e ov.1 ov.2) os).formatsByType = _
    rw [ih, (accumCell_core e ov.1 ov.2).2.2.1, List.foldl_cons]

theorem entryFold_uniqueValues (l : List (TF × JSValue)) : ∀ e : Entry,
    (entryFold e l).uniqueValues
      = l.foldl (fun u ov =>
          if distinctKeyOf ov.2 ≠ "" then addIfNew u (distinctKeyOf ov.2) else u)
          e.uniqueValues := by
  induction l with
  | nil => intro e; rfl
  | cons ov os ih =>
    intro e
    show (entryFold (accumCell e ov.1 ov.2) os).uniqueValues = _
    rw [ih, (accumCell_core e ov.1 ov.2).2.2.2.2.2, List.foldl_cons]

theorem entryFold_valueCounts (l : List (TF × JSValue)) : ∀ e : Entry,
    (entryFold e l).valueCounts
      = l.foldl (fun m ov =>
          match cellValueKey ov.1 ov.2 with
          | some k => bumpCount m k
          | none => m) e.valueCounts := by
  induction l with
  | nil => intro e; rfl
  | cons ov os ih =>
    intro e
    show (entryFold (accumCell e ov.1 ov.2) os).valueCounts = _
    rw [ih, accumCell_valueCounts, List.foldl_cons]

theorem entryFold_seq (l : List (TF × JSValue)) : ∀ e : Entry,
    ((entryFold e l).lastNum, (entryFold e l).isSequential, (entryFold e l).numCount)
      = seqFoldJS (e.lastNum, e.isSequential, e.numCount) (numericObs l) := by
  induction l with
  | nil => intro e; rfl
  | cons ov os ih =>
    intro e
    have hstep : entryFold e (ov :: os) = entryFold (accumCell e ov.1 ov.2) os := rfl
    rw [hstep]
    have hc := accumCell_numFields e ov.1 ov.2
    rcases hn : numValOf ov.1 ov.2 with _ | n
    · rw [hn] at hc; dsimp only at hc
      have h1 : (accumCell e ov.1 ov.2).numCount = e.numCount := congrArg Prod.fst hc
      have h2 : (accumCell e ov.1 ov.2).lastNum = e.lastNum :=
        congrArg (fun t => t.2.1) hc
      have h3 : (accumCell e ov.1 ov.2).isSequential = e.isSequential :=
        congrArg (fun t => t.2.2.1) hc
      rw [ih, h1, h2, h3]
      simp [numericObs, List.filterMap_cons, hn]
    · rw [hn] at hc; dsimp only at hc
      have h1 : (accumCell e ov.1 ov.2).numCount = e.numCount + 1 := congrArg Prod.fst hc
      have h2 : (accumCell e ov.1 ov.2).lastNum = some n := congrArg (fun t => t.2.1) hc
      have h3 : (accumCell e ov.1 ov.2).isSequential
          = (if e.numCount = 0 then e.isSequential
             else if (match e.lastNum with
                 | some last => subQ n last ≠ 1
                 | none => false : Bool) then false
             else e.isSequential) := congrArg (fun t => t.2.2.1) hc
      rw [ih, h1, h2, h3]
      simp only [numericObs, List.filterMap_cons, hn]
      rfl

theorem entryFold_numCounts (l : List (TF × JSValue)) : ∀ e : Entry,
    (entryFold e l).numFourDigitCount
      = e.numFourDigitCount +
        ((numericObs l).filter (fun n => n.den = 1 ∧ 1000 ≤ n ∧ n ≤ 9999)).length ∧
    (entryFold e l).numInRangeCount
      = e.numInRangeCount +
        ((numericObs l).filter (fun n => n.den = 1 ∧ 1800 ≤ n ∧ n ≤ 2100)).length := by
  induction l with
  | nil => intro e; simp [entryFold, numericObs]
  | cons ov os ih =>
    intro e
    have hstep : entryFold e (ov :: os) = entryFold (accumCell e ov.1 ov.2) os := rfl
    rw [hstep]
    have hc := accumCell_numFields e ov.1 ov.2
    rcases hn : numValOf ov.1 ov.2 with _ | n <;> rw [hn] at hc <;> dsimp only at hc
    · have h4 : (accumCell e ov.1 ov.2).numFourDigitCount = e.numFourDigitCount :=
        congrArg (fun t => t.2.2.2.1) hc
      have h5 : (accumCell e ov.1 ov.2).numInRangeCount = e.numInRangeCount :=
        congrArg (fun t => t.2.2.2.2) hc
      have := ih (accumCell e ov.1 ov.2)
      rw [h4, h5] at this
      simpa [numericObs, List.filterMap_cons, hn] using this
    · have h4 : (accumCell e ov.1 ov.2).numFourDigitCount
          = (if n.den = 1 ∧ 1000 ≤ n ∧ n ≤ 9999 then e.numFourDigitCount + 1
             else e.numFourDigitCount) := congrArg (fun t => t.2.2.2.1) hc
      have h5 : (accumCell e ov.1 ov.2).numInRangeCount
          = (if n.den = 1 ∧ 1800 ≤ n ∧ n ≤ 2100 then e.numInRangeCount + 1
             else e.numInRangeCount) := congrArg (fun t => t.2.2.2.2) hc
      have := ih (accumCell e ov.1 ov.2)
      rw [h4, h5] at this
      rcases this with ⟨t1, t2⟩
      have hobs : numericObs (ov :: os) = n :: numericObs os := by
        simp [numericObs, List.filterMap_cons, hn]
      constructor
      · rw [t1, hobs, List.filter_cons]
        by_cases hcond : n.den = 1 ∧ 1000 ≤ n ∧ n ≤ 9999 <;>
          · simp [hcond]
            try omega
      · rw [t2, hobs, List.filter_cons]
        by_cases hcond : n.den = 1 ∧ 1800 ≤ n ∧ n ≤ 2100 <;>
          · simp [hcond]
            try omega

theorem seqFoldJS_pos (rest : List Rat) : ∀ (last : Rat) (ok : Bool) (cnt : Nat),
    seqFoldJS (some last, ok, cnt + 1) rest
      = ((last :: rest).getLast?, ok && chainSucc (last :: rest),
          (cnt + 1) + rest.length) := by
  induction rest with
  | nil => intro last ok cnt; simp [seqFoldJS, chainSucc]
  | cons n ns ih =>
    intro last ok cnt
    have hstep : seqFoldJS (some last, ok, cnt + 1) (n :: ns)
        = seqFoldJS (some n, (if subQ n last ≠ 1 then false else ok), cnt + 2) ns := by
      simp [seqFoldJS]
    have hok : (if subQ n last ≠ 1 then false else ok) = (ok && decide (subQ n last = 1)) := by
      by_cases h : subQ n last = 1 <;> simp [h]
    have hchain : chainSucc (last :: n :: ns)
        = (decide (subQ n last = 1) && chainSucc (n :: ns)) := by
      simp [chainSucc]
    have hlast : (last :: n :: ns).getLast? = (n :: ns).getLast? := rfl
    rw [hstep, ih, hok, hchain, hlast]
    simp only [Prod.mk.injEq, List.length_cons, true_and]
    exact ⟨Bool.and_assoc .., by omega⟩

theorem seqFoldJS_init (ns : List Rat) :
    (seqFoldJS (none, true, 0) ns).2.1 = chainSucc ns ∧
    (seqFoldJS (none, true, 0) ns).2.2 = ns.length := by
  cases ns with
  | nil => simp [seqFoldJS, chainSucc]
  | cons n rest =>
    have hstep : seqFoldJS (none, true, 0) (n :: rest)
        = seqFoldJS (some n, true, 0 + 1) rest := by
      simp [seqFoldJS]
    rw [hstep, seqFoldJS_pos]
    simp
    omega

/-- Final sequential data of a (nonempty-initialised) column accumulator. -/
theorem entryFold_sequential (l : List (TF × JSValue)) :
    (entryFold {} l).isSequential = chainSucc (numericObs l) ∧
    (entryFold {} l).numCount = (numericObs l).length := by
  have h := entryFold_seq l {}
  have h1 : (entryFold ({} : Entry) l).isSequential
      = (seqFoldJS (none, true, 0) (numericObs l)).2.1 := by
    have := congrArg (fun t => t.2.1) h; simpa using this
  have h2 : (entryFold ({} : Entry) l).numCount
      = (seqFoldJS (none, true, 0) (numericObs l)).2.2 := by
    have := congrArg (fun t => t.2.2) h; simpa using this
  rw [h1, h2]
  exact ⟨(seqFoldJS_init _).1, (seqFoldJS_init _).2⟩

/-! ### Sorting lemmas (`sort((a,b) => b[1]-a[1])`) -/

theorem insertDesc_perm (x : String × Nat) (l : List (String × Nat)) :
    List.Perm (insertDesc x l) (x :: l) := by
  induction l with
  | nil => rfl
  | cons y ys ih =>
    unfold insertDesc
    by_cases h : x.2 ≥ y.2
    · rw [if_pos h]
    · rw [if_neg h]
      exact List.Perm.trans (List.Perm.cons y ih) (List.Perm.swap x y ys)

theorem sortDesc_perm (l : List (String × Nat)) : List.Perm (sortDesc l) l := by
  induction l with
  | nil => rfl
  | cons x xs ih =>
    unfold sortDesc at *
    exact List.Perm.trans (insertDesc_perm x (List.foldr insertDesc [] xs))
      (List.Perm.cons x ih)

theorem mem_sortDesc {x : String × Nat} {l : List (String × Nat)} :
    x ∈ sortDesc l ↔ x ∈ l :=
  (sortDesc_perm l).mem_iff

/-- `insertDesc` preserves descending order. -/
theorem insertDesc_sorted (x : String × Nat) (l : List (String × Nat))
    (h : l.Pairwise (fun a b => b.2 ≤ a.2)) :
    (insertDesc x l).Pairwise (fun a b => b.2 ≤ a.2) := by
  induction l with
  | nil => simp [insertDesc]
  | cons y ys ih =>
    unfold insertDesc
    rcases List.pairwise_cons.mp h with ⟨hy, hys⟩
    by_cases hge : x.2 ≥ y.2
    · rw [if_pos hge]
      refine List.pairwise_cons.mpr ⟨?_, h⟩
      intro b hb
      rcases List.mem_cons.mp hb with rfl | hb
      · exact hge
      · exact le_trans (hy b hb) hge
    · rw [if_neg hge]
      refine List.pairwise_cons.mpr ⟨?_, ih hys⟩
      intro b hb
      have hb2 := (insertDesc_perm x ys).mem_iff.mp hb
      rcases List.mem_cons.mp hb2 with rfl | hb2
      · omega
      · exact hy b hb2

theorem sortDesc_sorted (l : List (String × Nat)) :
    (sortDesc l).Pairwise (fun a b => b.2 ≤ a.2) := by
  induction l with
  | nil => simp [sortDesc]
  | cons x xs ih => exact insertDesc_sorted x _ ih

theorem le_maxCount {p : String × Nat} {l : List (String × Nat)} (h : p ∈ l) :
    p.2 ≤ maxCount l := by
  induction l with
  | nil => simp at h
  | cons x xs ih =>
    rcases List.mem_cons.mp h with rfl | h
    · simp [maxCount]
    · simp only [maxCount, List.map_cons, List.foldr_cons]
      exact le_trans (ih h) (Nat.le_max_right _ _)

theorem maxCount_le {l : List (String × Nat)} {c : Nat}
    (h : ∀ p ∈ l, p.2 ≤ c) : maxCount l ≤ c := by
  induction l with
  | nil => simp [maxCount]
  | cons x xs ih =>
    simp only [maxCount, List.map_cons, List.foldr_cons]
    exact Nat.max_le.mpr ⟨h x (List.mem_cons_self x xs),
      ih (fun p hp => h p (List.mem_cons_of_mem x hp))⟩

/-- The head of the sorted tally carries the maximum count. -/
theorem sortDesc_head_max (l : List (String × Nat)) (top : String × Nat)
    (rest : List (String × Nat)) (h : sortDesc l = top :: rest) :
    top.2 = maxCount l := by
  have hmem : top ∈ l := mem_sortDesc.mp (h ▸ List.mem_cons_self top rest)
  refine le_antisymm (le_maxCount hmem) (maxCount_le ?_)
  intro p hp
  have hp2 : p ∈ sortDesc l := mem_sortDesc.mpr hp
  rw [h] at hp2
  rcases List.mem_cons.mp hp2 with rfl | hp2
  · exact le_refl _
  · have hs := sortDesc_sorted l
    rw [h] at hs
    exact (List.pairwise_cons.mp hs).1 p hp2

theorem mem_le_sumCounts {p : String × Nat} {l : List (String × Nat)} (h : p ∈ l) :
    p.2 ≤ sumCounts l := by
  induction l with
  | nil => simp at h
  | cons x xs ih =>
    rcases List.mem_cons.mp h with rfl | h
    · simp [sumCounts]
    · simp only [sumCounts, List.map_cons, List.sum_cons]
      have := ih h
      simp only [sumCounts] at this
      omega

/-! ### Tallies built by `bumpCount` have pairwise-distinct keys, and their
totals count the bumps. -/

theorem keysND_nil : KeysND [] := by simp [KeysND]

theorem map_update_id (l : List (String × Nat)) (k : String)
    (h : ∀ p ∈ l, p.1 ≠ k) :
    l.map (fun p => if p.1 = k then (p.1, p.2 + 1) else p) = l := by
  induction l with
  | nil => rfl
  | cons x xs ih =>
    rw [List.map_cons, if_neg (h x (List.mem_cons_self x xs)),
      ih (fun p hp => h p (List.mem_cons_of_mem x hp))]

theorem bumpCount_keysND (l : List (String × Nat)) (k : String) (h : KeysND l) :
    KeysND (bumpCount l k) := by
  unfold bumpCount
  by_cases hp : l.any (fun p => p.1 = k)
  · rw [if_pos hp]
    unfold KeysND at *
    have : (l.map (fun p => if p.1 = k then (p.1, p.2 + 1) else p)).map (fun p => p.1)
        = l.map (fun p => p.1) := by
      rw [List.map_map]
      apply List.map_congr_left
      intro p _
      by_cases hpk : p.1 = k <;> simp [hpk]
    rw [this]; exact h
  · rw [if_neg hp]
    unfold KeysND at *
    rw [List.map_append]
    simp only [List.map_cons, List.map_nil]
    rw [List.nodup_append]
    refine ⟨h, by simp, ?_⟩
    intro a ha hb
    simp only [List.mem_singleton] at hb
    subst hb
    rcases List.mem_map.mp ha with ⟨p, hpl, hpk⟩
    apply hp
    rw [List.any_eq_true]
    exact ⟨p, hpl, by simp [hpk]⟩

theorem sumCounts_bumpCount (l : List (String × Nat)) (k : String) (h : KeysND l) :
    sumCounts (bumpCount l k) = sumCounts l + 1 := by
  unfold bumpCount
  by_cases hp : l.any (fun p => p.1 = k)
  · rw [if_pos hp]
    rcases List.any_eq_true.mp hp with ⟨p, hpl, hpk⟩
    have hpk2 : p.1 = k := of_decide_eq_true hpk
    clear hp hpk
    induction l with
    | nil => simp at hpl
    | cons x xs ih =>
      rcases List.mem_cons.mp hpl with rfl | hpl
      · rw [List.map_cons, if_pos hpk2]
        have hxs : ∀ q ∈ xs, q.1 ≠ k := by
          intro q hq hqk
          unfold KeysND at h
          rw [List.map_cons, List.nodup_cons] at h
          exact h.1 (by rw [hpk2, ← hqk]; exact List.mem_map.mpr ⟨q, hq, rfl⟩)
        rw [map_update_id xs k hxs]
        simp [sumCounts]
        omega
      · have hxk : x.1 ≠ k := by
          intro hxk
          unfold KeysND at h
          rw [List.map_cons, List.nodup_cons] at h
          exact h.1 (by rw [hxk, ← hpk2]; exact List.mem_map.mpr ⟨p, hpl, rfl⟩)
        rw [List.map_cons, if_neg hxk]
        have hnd : KeysND xs := by
          unfold KeysND at *
          rw [List.map_cons, List.nodup_cons] at h
          exact h.2
        have := ih hnd hpl
        simp only [sumCounts, List.map_cons, List.sum_cons] at *
        omega
  · rw [if_neg hp]
    simp [sumCounts]

theorem foldl_bump_keysND (l : List (TF × JSValue)) :
    ∀ init : List (String × Nat), KeysND init →
      KeysND (l.foldl (fun m ov => bumpCount m (labelOf ov.1)) init) := by
  induction l with
  | nil => intro init h; exact h
  | cons ov os ih =>
    intro init h
    rw [List.foldl_cons]
    exact ih _ (bumpCount_keysND _ _ h)

theorem tallyOfObs_keysND (l : List (TF × JSValue)) : KeysND (tallyOfObs l) :=
  foldl_bump_keysND l [] keysND_nil

/-- The tally total equals the number of observations. -/
theorem sumCounts_tallyOfObs (l : List (TF × JSValue)) :
    sumCounts (tallyOfObs l) = l.length := by
  suffices h : ∀ init : List (String × Nat), KeysND init →
      sumCounts (l.foldl (fun m ov => bumpCount m (labelOf ov.1)) init)
        = sumCounts init + l.length by
    have := h [] keysND_nil
    simpa [tallyOfObs, sumCounts] using this
  induction l with
  | nil => intro init _; simp
  | cons ov os ih =>
    intro init hnd
    rw [List.foldl_cons, ih _ (bumpCount_keysND _ _ hnd), sumCounts_bumpCount _ _ hnd]
    simp
    omega

theorem bumpCount_ne_nil (l : List (String × Nat)) (k : String) :
    bumpCount l k ≠ [] := by
  unfold bumpCount
  by_cases h : l.any (fun p => p.1 = k)
  · rw [if_pos h]
    intro hc
    rcases l with _ | ⟨x, xs⟩
    · simp at h
    · simp at hc
  · rw [if_neg h]
    simp

theorem foldl_bump_ne_nil (l : List (TF × JSValue)) :
    ∀ init : List (String × Nat), init ≠ [] →
      l.foldl (fun m ov => bumpCount m (labelOf ov.1)) init ≠ [] := by
  induction l with
  | nil => intro init h; exact h
  | cons ov os ih =>
    intro init _
    rw [List.foldl_cons]
    exact ih _ (bumpCount_ne_nil _ _)

theorem tallyOfObs_ne_nil (l : List (TF × JSValue)) (h : l ≠ []) :
    tallyOfObs l ≠ [] := by
  rcases l with _ | ⟨ov, os⟩
  · exact absurd rfl h
  · show List.foldl _ _ (ov :: os) ≠ []
    rw [List.foldl_cons]
    exact foldl_bump_ne_nil os _ (bumpCount_ne_nil _ _)

theorem sortDesc_ne_nil (l : List (String × Nat)) (h : l ≠ []) :
    sortDesc l ≠ [] := by
  intro hc
  apply h
  have := (sortDesc_perm l).length_eq
  rw [hc] at this
  exact List.length_eq_zero.mp this.symm

/-! ### The accumulator map has pairwise-distinct keys -/

theorem accBump_keys (acc : AccMap) (n : String) (g : Entry → Entry) :
    (accBump acc n g).map (fun p => p.1)
      = if acc.any (fun p => p.1 = n) then acc.map (fun p => p.1)
        else acc.map (fun p => p.1) ++ [n] := by
  unfold accBump
  by_cases h : acc.any (fun p => p.1 = n)
  · rw [if_pos h, if_pos h, List.map_map]
    apply List.map_congr_left
    intro p _
    by_cases hp : p.1 = n <;> simp [hp]
  · rw [if_neg h, if_neg h, List.map_append]
    rfl

theorem accBump_keysNodup (acc : AccMap) (n : String) (g : Entry → Entry)
    (h : (acc.map (fun p => p.1)).Nodup) :
    ((accBump acc n g).map (fun p => p.1)).Nodup := by
  rw [accBump_keys]
  by_cases hp : acc.any (fun p => p.1 = n)
  · rw [if_pos hp]; exact h
  · rw [if_neg hp]
    rw [List.nodup_append]
    refine ⟨h, by simp, ?_⟩
    intro a ha hb
    simp only [List.mem_singleton] at hb
    subst hb
    rcases List.mem_map.mp ha with ⟨p, hpl, hpk⟩
    apply hp
    rw [List.any_eq_true]
    exact ⟨p, hpl, by simp [hpk]⟩

theorem accumRow_keysNodup (p : Bool) (row : Row) : ∀ (acc : AccMap),
    (acc.map (fun q => q.1)).Nodup →
    ((accumRow p acc row).map (fun q => q.1)).Nodup := by
  induction row with
  | nil => intro acc h; exact h
  | cons cell rest ih =>
    intro acc h
    rcases hd : detectTypeAndFormat cell.2 p with _ | tf
    · have hrow : accumRow p acc (cell :: rest) = accumRow p acc rest := by
        simp only [accumRow, List.foldl_cons, hd]
      rw [hrow]; exact ih acc h
    · have hrow : accumRow p acc (cell :: rest)
          = accumRow p (accBump acc cell.1 (fun e => accumCell e tf cell.2)) rest := by
        simp only [accumRow, List.foldl_cons, hd]
      rw [hrow]
      exact ih _ (accBump_keysNodup _ _ _ h)

theorem accumulate_keysNodup (p : Bool) (rows : List Row) :
    ((accumulate p rows).map (fun q => q.1)).Nodup := by
  suffices h : ∀ acc : AccMap, (acc.map (fun q => q.1)).Nodup →
      ((rows.foldl (accumRow p) acc).map (fun q => q.1)).Nodup by
    exact h [] (by simp)
  induction rows with
  | nil => intro acc h; exact h
  | cons row rest ih =>
    intro acc h
    rw [List.foldl_cons]
    exact ih _ (accumRow_keysNodup p row acc h)

/-- In a key-Nodup association list, membership determines the lookup. -/
theorem mem_lookupL {l : List (String × Entry)} {n : String} {e : Entry}
    (hnd : (l.map (fun p => p.1)).Nodup) (h : (n, e) ∈ l) :
    lookupL l n = some e := by
  induction l with
  | nil => simp at h
  | cons hd tl ih =>
    rw [List.map_cons, List.nodup_cons] at hnd
    rcases List.mem_cons.mp h with rfl | h2
    · rw [lookupL_cons, if_pos rfl]
    · rw [lookupL_cons]
      by_cases hk : hd.1 = n
      · exfalso
        exact hnd.1 (hk ▸ List.mem_map.mpr ⟨(n, e), h2, rfl⟩)
      · rw [if_neg hk]
        exact ih hnd.2 h2

/-! ### Origin of accumulated entries -/

/-- Every entry reachable from `accumColumn` is an `entryFold` over a nonempty
observation list. -/
theorem accumColumn_eq (p : Bool) (cells : List JSValue) (e : Entry)
    (h : accumColumn p cells = some e) :
    ∃ ov os, colObs p cells = ov :: os ∧ e = entryFold (accumCell {} ov.1 ov.2) os := by
  unfold accumColumn at h
  rcases hobs : colObs p cells with _ | ⟨ov, os⟩
  · rw [hobs] at h; simp [optFold] at h
  · rw [hobs] at h
    have : optFold none (ov :: os) = optFold (some (accumCell {} ov.1 ov.2)) os := by
      simp [optFold, List.foldl_cons]
    rw [this, optFold_some] at h
    exact ⟨ov, os, rfl, (Option.some.injEq _ _ ▸ h).symm⟩

/-- `entryFold` from the first observation equals the spec-side folds over the
whole (nonempty) observation list. -/
theorem entryFold_fields (ov : TF × JSValue) (os : List (TF × JSValue)) :
    (entryFold (accumCell {} ov.1 ov.2) os).sawNonEmpty = true ∧
    (entryFold (accumCell {} ov.1 ov.2) os).nonEmptyCount = (ov :: os).length ∧
    (entryFold (accumCell {} ov.1 ov.2) os).formatCounts = tallyOfObs (ov :: os) ∧
    (entryFold (accumCell {} ov.1 ov.2) os).types = typesOfObs (ov :: os) ∧
    (entryFold (accumCell {} ov.1 ov.2) os).formatsByType = formatsOfObs (ov :: os) ∧
    (entryFold (accumCell {} ov.1 ov.2) os).uniqueValues = uniquesOfObs (ov :: os) ∧
    (entryFold (accumCell {} ov.1 ov.2) os).valueCounts = valueCountsOfObs (ov :: os) ∧
    (entryFold (accumCell {} ov.1 ov.2) os).isSequential = chainSucc (numericObs (ov :: os)) ∧
    (entryFold (accumCell {} ov.1 ov.2) os).numCount = (numericObs (ov :: os)).length ∧
    (entryFold (accumCell {} ov.1 ov.2) os).numFourDigitCount
      = ((numericObs (ov :: os)).filter (fun n => n.den = 1 ∧ 1000 ≤ n ∧ n ≤ 9999)).length ∧
    (entryFold (accumCell {} ov.1 ov.2) os).numInRangeCount
      = ((numericObs (ov :: os)).filter (fun n => n.den = 1 ∧ 1800 ≤ n ∧ n ≤ 2100)).length := by
  have hstep : ∀ (f : Entry → Entry), True := fun _ => trivial
  have hfold : entryFold ({} : Entry) (ov :: os)
      = entryFold (accumCell {} ov.1 ov.2) os := rfl
  refine ⟨entryFold_sawNonEmpty_cons ov os, ?_, ?_, ?_, ?_, ?_, ?_, ?_, ?_, ?_, ?_⟩
  · rw [← hfold, entryFold_nonEmptyCount]; simp
  · rw [← hfold, entryFold_formatCounts]; rfl
  · rw [← hfold, entryFold_types]; rfl
  · rw [← hfold, entryFold_formatsByType]; rfl
  · rw [← hfold, entryFold_uniqueValues]; rfl
  · rw [← hfold, entryFold_valueCounts]; rfl
  · rw [← hfold]; exact (entryFold_sequential _).1
  · rw [← hfold]; exact (entryFold_sequential _).2
  · rw [← hfold]
    have := (entryFold_numCounts (ov :: os) {}).1
    simpa using this
  · rw [← hfold]
    have := (entryFold_numCounts (ov :: os) {}).2
    simpa using this

/-! ### Membership structure of `getSchemaWith` results -/

/-- Every result column arises from a resolved accumulator entry, possibly
modified by the `preferStringNumbers` post-pass (which only rewrites
`type`/`format` of Number columns). -/
theorem getSchemaWith_mem (rows : List Row) (total : Nat) (opts : Options)
    (col : ColumnSchema) (h : col ∈ getSchemaWith rows total opts) :
    ∃ (name : String) (e : Entry) (col0 : ColumnSchema),
      lookupL (accumulate opts.preferStringNumbers rows) name = some e ∧
      resolveEntry rows total opts.dropEmptyColumns name e = some col0 ∧
      (col = col0 ∨
        (opts.preferStringNumbers = true ∧ col0.type = "Number" ∧
          col = { col0 with type := "String", format := some "mixed" })) := by
  unfold getSchemaWith postPass at h
  have hres : ∀ col0, col0 ∈ (accumulate opts.preferStringNumbers rows).filterMap
      (fun p => resolveEntry rows total opts.dropEmptyColumns p.1 p.2) →
      ∃ name e, lookupL (accumulate opts.preferStringNumbers rows) name = some e ∧
        resolveEntry rows total opts.dropEmptyColumns name e = some col0 := by
    intro col0 hc
    rcases List.mem_filterMap.mp hc with ⟨pr, hpr, hres⟩
    exact ⟨pr.1, pr.2, mem_lookupL (accumulate_keysNodup _ _) hpr, hres⟩
  by_cases hp : opts.preferStringNumbers
  · rw [if_pos hp] at h
    rcases List.mem_map.mp h with ⟨col0, hc0, hmap⟩
    rcases hres col0 hc0 with ⟨name, e, hl, hr⟩
    refine ⟨name, e, col0, hl, hr, ?_⟩
    by_cases hcond : col0.type = "Number" ∧ ¬ allNumericCol rows col0.name
    · rw [if_pos hcond] at hmap
      exact Or.inr ⟨hp, hcond.1, hmap.symm⟩
    · rw [if_neg hcond] at hmap
      exact Or.inl hmap.symm
  · rw [if_neg hp] at h
    rcases hres col h with ⟨name, e, hl, hr⟩
    exact ⟨name, e, col, hl, hr, Or.inl rfl⟩

/-! ### `addIfNew` fold membership -/

theorem mem_addIfNew (l : List String) (s a : String) :
    a ∈ addIfNew l s ↔ a ∈ l ∨ a = s := by
  unfold addIfNew
  by_cases h : s ∈ l
  · rw [if_pos h]
    constructor
    · exact Or.inl
    · rintro (ha | rfl)
      · exact ha
      · exact h
  · rw [if_neg h]
    simp [List.mem_append]

theorem foldl_addIfNew_mem (xs : List String) : ∀ (init : List String) (a : String),
    a ∈ xs.foldl addIfNew init ↔ a ∈ init ∨ a ∈ xs := by
  induction xs with
  | nil => intro init a; simp
  | cons x xs ih =>
    intro init a
    rw [List.foldl_cons, ih, mem_addIfNew]
    simp [List.mem_cons]
    tauto

theorem foldl_addIfNew_from (rest : List String) (t : String)
    (hall : ∀ x ∈ rest, x = t) : rest.foldl addIfNew [t] = [t] := by
  induction rest with
  | nil => rfl
  | cons x xs ih =>
    have hx : x = t := hall x (List.mem_cons_self x xs)
    subst hx
    rw [List.foldl_cons, show addIfNew [x] x = [x] from by simp [addIfNew]]
    exact ih (fun y hy => hall y (List.mem_cons_of_mem x hy))

/-- When every element equals `t` and the list is nonempty, the deduplicating
fold yields exactly `[t]`. -/
theorem foldl_addIfNew_single (xs : List String) (t : String)
    (hall : ∀ x ∈ xs, x = t) (hne : xs ≠ []) :
    xs.foldl addIfNew [] = [t] := by
  rcases xs with _ | ⟨x, rest⟩
  · exact absurd rfl hne
  · have hx : x = t := hall x (List.mem_cons_self x rest)
    subst hx
    rw [List.foldl_cons, show addIfNew [] x = [x] from by simp [addIfNew]]
    exact foldl_addIfNew_from rest x (fun y hy => hall y (List.mem_cons_of_mem x hy))

/-! ### Field lemmas for the resolver branches -/

theorem singleScoreProbably_eq (rt : String) (e : Entry) (top : String × Nat)
    (rest : List (String × Nat)) (hs : sortDesc e.formatCounts = top :: rest) :
    singleScoreProbably rt e
      = (some (mkRat top.2 e.nonEmptyCount),
          if rt = "String" then
            some (if top.1 = "Text" ∧ e.hasStringDuplicate then
                if e.strSeen.length > 1 then
                  if e.strSeen.length < 10 then
                    "Categories: " ++ joinSep ", " e.strSeen
                  else "Categories"
                else "Zero-variance column"
              else top.1)
          else if (mkRat top.2 e.nonEmptyCount) < 1 then some top.1
          else none) := by
  unfold singleScoreProbably
  rw [hs]
  by_cases h : rt = "String" <;> simp [h]

theorem resolveSingleCore_fields (total : Nat) (name : String) (e : Entry)
    (rt : String) (format : Option String) (top : String × Nat)
    (rest : List (String × Nat)) (hs : sortDesc e.formatCounts = top :: rest) :
    (resolveSingleCore total name e rt format).name = name ∧
    (resolveSingleCore total name e rt format).type = rt ∧
    (resolveSingleCore total name e rt format).format = format ∧
    (resolveSingleCore total name e rt format).tally = e.formatCounts ∧
    (resolveSingleCore total name e rt format).score
      = some (mkRat top.2 e.nonEmptyCount) ∧
    (rt = "String" → (resolveSingleCore total name e rt format).probably.isSome) ∧
    (rt ≠ "String" → (resolveSingleCore total name e rt format).probably
      = if (mkRat top.2 e.nonEmptyCount) < 1 then some top.1 else none) := by
  have hsp := singleScoreProbably_eq rt e top rest hs
  unfold resolveSingleCore
  by_cases h1 : rt = "String"
  · rw [if_pos h1, hsp, if_pos h1]
    refine ⟨rfl, rfl, rfl, rfl, rfl, fun _ => ?_, fun hc => absurd h1 hc⟩
    simp
  · rw [if_neg h1]
    by_cases h2 : rt = "Number"
    · rw [if_pos h2, hsp, if_neg h1]
      exact ⟨rfl, rfl, rfl, rfl, rfl, fun hc => absurd hc h1, fun _ => rfl⟩
    · rw [if_neg h2]
      by_cases h3 : rt = "Date"
      · rw [if_pos h3, hsp, if_neg h1]
        exact ⟨rfl, rfl, rfl, rfl, rfl, fun hc => absurd hc h1, fun _ => rfl⟩
      · rw [if_neg h3, hsp, if_neg h1]
        exact ⟨rfl, rfl, rfl, rfl, rfl, fun hc => absurd hc h1, fun _ => rfl⟩

theorem resolveMixed_fields (total : Nat) (name : String) (e : Entry)
    (top : String × Nat) (rest : List (String × Nat))
    (hs : sortDesc e.formatCounts = top :: rest) :
    (resolveMixed total name e).name = name ∧
    (resolveMixed total name e).type = "String" ∧
    (resolveMixed total name e).format = some "mixed" ∧
    (resolveMixed total name e).tally = e.formatCounts ∧
    (resolveMixed total name e).score
      = some (mkRat top.2 e.nonEmptyCount) ∧
    (resolveMixed total name e).probably = some top.1 := by
  unfold resolveMixed mixedScoreProbably
  rw [hs]
  exact ⟨rfl, rfl, rfl, rfl, rfl, rfl⟩

/-- Resolution facts common to every non-empty column: name, tally, score from
the sorted tally head, and `probably` discipline per resolved type. -/
theorem resolveEntry_fields (rows : List Row) (total : Nat) (drop : Bool)
    (name : String) (e : Entry) (col0 : ColumnSchema)
    (hsaw : e.sawNonEmpty = true) (htne : e.types ≠ [])
    (hfc : e.formatCounts ≠ [])
    (h : resolveEntry rows total drop name e = some col0) :
    ∃ top rest, sortDesc e.formatCounts = top :: rest ∧
      col0.name = name ∧
      col0.tally = e.formatCounts ∧
      col0.score = some (mkRat top.2 e.nonEmptyCount) ∧
      (col0.type = "String" → col0.probably.isSome) ∧
      (col0.type ≠ "String" → col0.probably
        = if (mkRat top.2 e.nonEmptyCount) < 1 then some top.1 else none) := by
  rcases hsd : sortDesc e.formatCounts with _ | ⟨top, rest⟩
  · exact absurd hsd (sortDesc_ne_nil _ hfc)
  refine ⟨top, rest, rfl, ?_⟩
  unfold resolveEntry at h
  rw [hsaw] at h
  simp only [Bool.true_eq_false, if_false] at h
  by_cases hlen : e.types.length > 1
  · rw [if_pos hlen] at h
    have hcol : col0 = resolveMixed total name e := by
      injection h with h2
      exact h2.symm
    rcases resolveMixed_fields total name e top rest hsd with ⟨f1, f2, f3, f4, f5, f6⟩
    rw [hcol]
    refine ⟨f1, f4, f5, fun _ => ?_, fun hc => absurd f2 hc⟩
    rw [f6]; simp
  · rw [if_neg hlen] at h
    rcases hty : e.types with _ | ⟨t, ts⟩
    · exact absurd hty htne
    rcases ts with _ | ⟨t2, ts2⟩
    · rw [hty] at h
      have hcol : col0 = resolveSingle rows total name e t := by
        injection h with h2
        exact h2.symm
      subst hcol
      unfold resolveSingle
      dsimp only
      rcases resolveSingleCore_fields total name e _ _ top rest hsd with
        ⟨f1, f2, f3, f4, f5, f6, f7⟩
      exact ⟨f1, f4, f5,
        fun hty2 => f6 (by rw [← f2]; exact hty2),
        fun hty2 => f7 (by rw [← f2]; exact hty2)⟩
    · exfalso
      rw [hty] at hlen
      simp at hlen

theorem parseDecimal_empty : parseDecimal "" = none := rfl

/-! ## Claims -/

/-- C1 (counterexample): the claim says a non-null, non-empty input whose
stripped residual is not cleanly numeric comes back *unchanged under both
settings of `emptyAsNull`*; but with `emptyAsNull = true` the source's line 54
returns `null`, not the original value: `normalizeNumber("abc", {emptyAsNull:
true})` is `null`, and `null ≠ "abc"`. -/
theorem C1_counterexample :
    normalizeNumber (.vStr "abc") true = .vNull ∧
    JSValue.vNull ≠ JSValue.vStr "abc" := by
  constructor
  · decide
  · decide

/-- C1 (amended): `normalizeNumber` passes native numbers through unchanged;
maps null and empty-after-trim input to `null` when `emptyAsNull` is true and
to the original value otherwise; returns the parsed number when the stripped
residual matches `[+-]?digits(.digits)?` (so `"$2,345.50"` gives `2345.5`,
`"12%"` gives `12`, `""` with `emptyAsNull` gives `null`); and for non-null,
non-empty input whose stripped residual is not cleanly numeric it returns the
original value when `emptyAsNull` is false and `null` when `emptyAsNull` is
true (the flag applies to unparseable input too, line 54). -/
theorem C1_normalizeNumber_amended :
    (∀ (q : Rat) (em : Bool), normalizeNumber (.vNum q) em = .vNum q) ∧
    (∀ em : Bool, normalizeNumber .vNull em = .vNull) ∧
    (∀ (s : String) (em : Bool), jsTrim s = "" →
      normalizeNumber (.vStr s) em = (if em then .vNull else .vStr s)) ∧
    (∀ (s : String) (q : Rat) (em : Bool), jsTrim s ≠ "" →
      parseDecimal (stripNumeric (jsTrim s)).residual = some q →
      normalizeNumber (.vStr s) em = .vNum q) ∧
    (∀ (s : String) (em : Bool), jsTrim s ≠ "" →
      parseDecimal (stripNumeric (jsTrim s)).residual = none →
      normalizeNumber (.vStr s) em = (if em then .vNull else .vStr s)) ∧
    normalizeNumber (.vStr "$2,345.50") false = .vNum (mkRat 4691 2) ∧
    normalizeNumber (.vStr "$2,345.50") true = .vNum (mkRat 4691 2) ∧
    normalizeNumber (.vStr "12%") false = .vNum 12 ∧
    normalizeNumber (.vStr "12%") true = .vNum 12 ∧
    normalizeNumber (.vStr "") true = .vNull := by
  refine ⟨fun q em => rfl, fun em => by cases em <;> rfl, ?_, ?_, ?_,
    by decide, by decide, by decide, by decide, by decide⟩
  · intro s em h
    unfold normalizeNumber
    simp [jsToString, h]
  · intro s q em h1 h2
    have hres : (stripNumeric (jsTrim s)).residual ≠ "" := by
      intro hc
      rw [hc, parseDecimal_empty] at h2
      exact Option.noConfusion h2
    unfold normalizeNumber
    simp [jsToString, h1, hres, h2]
  · intro s em h1 h2
    unfold normalizeNumber
    by_cases hres : (stripNumeric (jsTrim s)).residual = ""
    · simp [jsToString, h1, hres]
    · simp [jsToString, h1, hres, h2]

/-- C1 (witness): the amended theorem applied at concrete inputs. -/
theorem C1_normalizeNumber_amended_witness :
    normalizeNumber (.vStr " 42 ") false = .vNum 42 ∧
    normalizeNumber (.vStr "x7") true = .vNull ∧
    normalizeNumber (.vStr "x7") false = .vStr "x7" ∧
    normalizeNumber (.vStr "  ") true = .vNull := by
  refine ⟨?_, ?_, ?_, ?_⟩
  · exact C1_normalizeNumber_amended.2.2.2.1 " 42 " 42 false (by decide) (by decide)
  · have := C1_normalizeNumber_amended.2.2.2.2.1 "x7" true (by decide) (by decide)
    simpa using this
  · have := C1_normalizeNumber_amended.2.2.2.2.1 "x7" false (by decide) (by decide)
    simpa using this
  · have := C1_normalizeNumber_amended.2.2.1 "  " true (by decide)
    simpa using this

/-- C10: for Number-classified cells, `valueCounts` (the topK source) is keyed
by the canonical `String(parsedNumber)` while `uniqueValues` (the
`distinctCount` source) is keyed by the raw trimmed string; concretely, a
column with raw values `"1,234"` and `"1234"` has `distinctCount = 2` and
`isUnique = true` while its topK is the single entry `("1234", 2)`, and raw
`"$2,345.50"` is counted under `"2345.5"`. -/
theorem C10_number_value_keying :
    (∀ (e : Entry) (tf : TF) (v : JSValue) (n : Rat),
      tf.type = "Number" → normalizeNumber v false = .vNum n →
      (accumCell e tf v).valueCounts
          = bumpCount e.valueCounts (jsNumberToString n) ∧
      (distinctKeyOf v ≠ "" →
        (accumCell e tf v).uniqueValues = addIfNew e.uniqueValues (distinctKeyOf v))) ∧
    (getSchema [[("n", .vStr "1,234")], [("n", .vStr "1234")]] {}).map
        (fun c => (c.name, c.distinctCount, c.isUnique, c.topK))
      = [("n", 2, true, [("1234", 2)])] ∧
    (getSchema [[("r", .vStr "$2,345.50")]] {}).map (fun c => c.topK)
      = [[("2345.5", 1)]] := by
  refine ⟨?_, by decide, by decide⟩
  intro e tf v n htf hn
  constructor
  · have h1 := accumCell_valueCounts e tf v
    have hck : cellValueKey tf v = some (jsNumberToString n) := by
      unfold cellValueKey
      rw [htf]
      simp [hn]
    rw [hck] at h1
    exact h1
  · intro hdk
    have h2 := (accumCell_core e tf v).2.2.2.2.2
    rw [if_pos hdk] at h2
    exact h2

/-- C10 (witness): the universal part applied at a concrete Number cell. -/
theorem C10_number_value_keying_witness :
    (accumCell {} ⟨"Number", some "Integer"⟩ (.vStr "1,234")).valueCounts
        = [("1234", 1)] ∧
    (accumCell {} ⟨"Number", some "Integer"⟩ (.vStr "1,234")).uniqueValues
        = ["1,234"] := by
  have h := C10_number_value_keying.1 {} ⟨"Number", some "Integer"⟩
    (.vStr "1,234") 1234 rfl (by decide)
  constructor
  · rw [h.1 ]
    decide
  · rw [h.2 (by decide)]
    decide

/-! ### Supporting lemmas for the `preferStringNumbers` claims -/

theorem stringSubformat_type (s : String) : (stringSubformat s).type = "String" := by
  unfold stringSubformat
  simp [apply_ite TF.type]

/-- With `preferStringNumbers`, no value classifies as Number. -/
theorem detect_true_not_number (v : JSValue) (tf : TF)
    (h : detectTypeAndFormat v true = some tf) : tf.type ≠ "Number" := by
  unfold detectTypeAndFormat at h
  rcases v with _ | b | q | s
  · exact Option.noConfusion h
  all_goals
    (dsimp only at h
     split at h
     · exact Option.noConfusion h
     · split at h
       · injection h with h2
         rw [← h2]
         exact (by decide : ("Boolean" : String) ≠ "Number")
       · split at h
         case _ fmt heq =>
           injection h with h2
           rw [← h2]
           exact (by decide : ("Date" : String) ≠ "Number")
         case _ heq =>
           rw [if_neg (fun hc => hc rfl)] at h
           injection h with h2
           rw [← h2, stringSubformat_type]
           exact (by decide : ("String" : String) ≠ "Number"))

/-- Each observation's classification really is `detectTypeAndFormat`. -/
theorem mem_colObs {ov : TF × JSValue} {p : Bool} {cells : List JSValue}
    (h : ov ∈ colObs p cells) : detectTypeAndFormat ov.2 p = some ov.1 := by
  unfold colObs at h
  rcases List.mem_filterMap.mp h with ⟨v, _, hmap⟩
  rcases Option.map_eq_some'.mp hmap with ⟨tf, hdet, heq⟩
  rw [← heq]
  exact hdet

theorem typesOfObs_mem (l : List (TF × JSValue)) (a : String) :
    a ∈ typesOfObs l ↔ a ∈ l.map (fun ov => ov.1.type) := by
  unfold typesOfObs
  rw [show l.foldl (fun t ov => addIfNew t ov.1.type) []
      = (l.map (fun ov => ov.1.type)).foldl addIfNew [] from (List.foldl_map _ _ _ _).symm]
  rw [foldl_addIfNew_mem]
  simp

theorem resolveSingleCore_type (total : Nat) (name : String) (e : Entry)
    (rt : String) (format : Option String) :
    (resolveSingleCore total name e rt format).type = rt := by
  unfold resolveSingleCore
  simp [apply_ite ColumnSchema.type]

/-- If the accumulated types avoid "Number", so does the resolved type. -/
theorem resolveEntry_type_not_number (rows : List Row) (total : Nat) (drop : Bool)
    (name : String) (e : Entry) (col0 : ColumnSchema)
    (hnn : "Number" ∉ e.types)
    (h : resolveEntry rows total drop name e = some col0) :
    col0.type ≠ "Number" := by
  unfold resolveEntry at h
  by_cases hsaw : e.sawNonEmpty = false
  · rw [if_pos hsaw] at h
    by_cases hdrop : drop = true
    · rw [if_pos hdrop] at h
      exact Option.noConfusion h
    · rw [if_neg hdrop] at h
      injection h with h2
      rw [← h2]
      exact (by decide : ("String" : String) ≠ "Number")
  · rw [if_neg hsaw] at h
    by_cases hlen : e.types.length > 1
    · rw [if_pos hlen] at h
      injection h with h2
      rw [← h2]
      exact (by decide : ("String" : String) ≠ "Number")
    · rw [if_neg hlen] at h
      rcases hty : e.types with _ | ⟨t, ts⟩
      all_goals rw [hty] at h
      · injection h with h2
        rw [← h2]
        exact (by decide : ("String" : String) ≠ "Number")
      · rcases ts with _ | ⟨t2, ts2⟩
        · injection h with h2
          subst h2
          unfold resolveSingle
          dsimp only
          rw [resolveSingleCore_type]
          have ht : t ∈ e.types := by rw [hty]; exact List.mem_cons_self t []
          have htn : t ≠ "Number" := fun hc => hnn (hc ▸ ht)
          rw [if_neg (fun hc => htn (of_decide_eq_true hc).1)]
          exact htn
        · injection h with h2
          rw [← h2]
          exact (by decide : ("String" : String) ≠ "Number")

/-- Under `preferStringNumbers`, every accumulated entry's `types` set avoids
"Number". -/
theorem accumulate_no_number (rows : List Row) (name : String) (e : Entry)
    (h : lookupL (accumulate true rows) name = some e) :
    "Number" ∉ e.types := by
  rw [lookup_accumulate] at h
  rcases accumColumn_eq true _ e h with ⟨ov, os, hobs, hfold⟩
  have htypes := (entryFold_fields ov os).2.2.2.1
  rw [← hfold] at htypes
  rw [htypes]
  intro hmem
  rcases List.mem_map.mp ((typesOfObs_mem _ _).mp hmem) with ⟨ov2, hov2, hty⟩
  have hdet : detectTypeAndFormat ov2.2 true = some ov2.1 :=
    mem_colObs (hobs ▸ hov2)
  exact detect_true_not_number ov2.2 ov2.1 hdet hty

/-- Under `preferStringNumbers`, `getSchemaWith` never emits a Number column. -/
theorem getSchemaWith_prefer_no_number (rows : List Row) (total : Nat)
    (opts : Options) (col : ColumnSchema) (hp : opts.preferStringNumbers = true)
    (h : col ∈ getSchemaWith rows total opts) : col.type ≠ "Number" := by
  rcases getSchemaWith_mem rows total opts col h with ⟨name, e, col0, hl, hr, hd⟩
  rw [hp] at hl
  have hnn := accumulate_no_number rows name e hl
  have h0 := resolveEntry_type_not_number rows total _ name e col0 hnn hr
  rcases hd with rfl | ⟨_, _, rfl⟩
  · exact h0
  · exact (by decide : ("String" : String) ≠ "Number")

/-- C6: with `preferStringNumbers` the Number classification rule is skipped —
no value classifies as Number and no column resolves as Number — and the
post-pass downgrades a Number-typed result to String/"mixed" exactly when some
row's raw value is neither empty nor strictly `[-]?digits[.digits]`. -/
theorem C6_preferStringNumbers :
    (∀ (v : JSValue) (tf : TF),
      detectTypeAndFormat v true = some tf → tf.type ≠ "Number") ∧
    (∀ (rows : List Row) (opts : Options) (col : ColumnSchema),
      opts.preferStringNumbers = true → col ∈ getSchema rows opts →
      col.type ≠ "Number") ∧
    (∀ (rows : List Row) (results : List ColumnSchema) (r : ColumnSchema),
      r ∈ results → r.type = "Number" → allNumericCol rows r.name = false →
      { r with type := "String", format := some "mixed" } ∈ postPass true rows results) ∧
    (∀ (rows : List Row) (results : List ColumnSchema) (r : ColumnSchema),
      r ∈ results → (r.type = "Number" → allNumericCol rows r.name = true) →
      r ∈ postPass true rows results) := by
  refine ⟨detect_true_not_number, ?_, ?_, ?_⟩
  · intro rows opts col hp h
    exact getSchemaWith_prefer_no_number rows rows.length opts col hp h
  · intro rows results r hmem hty hall
    unfold postPass
    rw [if_pos rfl]
    refine List.mem_map.mpr ⟨r, hmem, ?_⟩
    rw [if_pos ⟨hty, by simp [hall]⟩]
  · intro rows results r hmem hcond
    unfold postPass
    rw [if_pos rfl]
    refine List.mem_map.mpr ⟨r, hmem, ?_⟩
    rw [if_neg ?_]
    rintro ⟨h1, h2⟩
    exact h2 (hcond h1)

/-- C6 (witness): the parts applied at concrete inputs. -/
theorem C6_preferStringNumbers_witness :
    (detectTypeAndFormat (.vStr "42") true = some ⟨"String", some "Text"⟩ ∧
      ("String" : String) ≠ "Number") ∧
    ((getSchema [[("n", .vStr "42x")], [("n", .vStr "7")]]
        { preferStringNumbers := true }).map (fun c => c.type) = ["String"]) ∧
    ({ name := "n", type := "String", format := some "mixed" : ColumnSchema }
        ∈ postPass true [[("n", .vStr "a")]]
          [{ name := "n", type := "Number", format := some "Integer" }]) := by
  refine ⟨⟨by decide, ?_⟩, by decide, ?_⟩
  · exact C6_preferStringNumbers.1 (.vStr "42") ⟨"String", some "Text"⟩ (by decide)
  · have h := C6_preferStringNumbers.2.2.1 [[("n", .vStr "a")]]
      [{ name := "n", type := "Number", format := some "Integer" }]
      { name := "n", type := "Number", format := some "Integer" }
      (List.mem_cons_self _ _) rfl (by decide)
    simpa using h

/-- Common unpacking: a schema column's entry comes from a nonempty
observation list whose spec-side folds describe all accumulator fields. -/
theorem getSchema_column_origin (rows : List Row) (total : Nat) (opts : Options)
    (col : ColumnSchema) (h : col ∈ getSchemaWith rows total opts) :
    ∃ (name : String) (e : Entry) (col0 : ColumnSchema) (ov : TF × JSValue)
      (os : List (TF × JSValue)),
      colObs opts.preferStringNumbers (columnCells rows name) = ov :: os ∧
      lookupL (accumulate opts.preferStringNumbers rows) name = some e ∧
      e.sawNonEmpty = true ∧
      e.nonEmptyCount = (ov :: os).length ∧
      e.formatCounts = tallyOfObs (ov :: os) ∧
      e.types = typesOfObs (ov :: os) ∧
      e.formatsByType = formatsOfObs (ov :: os) ∧
      e.uniqueValues = uniquesOfObs (ov :: os) ∧
      e.valueCounts = valueCountsOfObs (ov :: os) ∧
      e.isSequential = chainSucc (numericObs (ov :: os)) ∧
      e.numCount = (numericObs (ov :: os)).length ∧
      e.numFourDigitCount
        = ((numericObs (ov :: os)).filter (fun n => n.den = 1 ∧ 1000 ≤ n ∧ n ≤ 9999)).length ∧
      e.numInRangeCount
        = ((numericObs (ov :: os)).filter (fun n => n.den = 1 ∧ 1800 ≤ n ∧ n ≤ 2100)).length ∧
      resolveEntry rows total opts.dropEmptyColumns name e = some col0 ∧
      (col = col0 ∨
        (opts.preferStringNumbers = true ∧ col0.type = "Number" ∧
          col = { col0 with type := "String", format := some "mixed" })) := by
  rcases getSchemaWith_mem rows total opts col h with ⟨name, e, col0, hl, hr, hd⟩
  have hl2 := hl
  rw [lookup_accumulate] at hl2
  rcases accumColumn_eq _ _ e hl2 with ⟨ov, os, hobs, hfold⟩
  have hf := entryFold_fields ov os
  rw [← hfold] at hf
  exact ⟨name, e, col0, ov, os, hobs, hl, hf.1, hf.2.1, hf.2.2.1, hf.2.2.2.1,
    hf.2.2.2.2.1, hf.2.2.2.2.2.1, hf.2.2.2.2.2.2.1, hf.2.2.2.2.2.2.2.1,
    hf.2.2.2.2.2.2.2.2.1, hf.2.2.2.2.2.2.2.2.2.1, hf.2.2.2.2.2.2.2.2.2.2, hr, hd⟩

/-- The post-pass, when it modifies a column, changes only `type`/`format`. -/
theorem postPass_keeps (col0 : ColumnSchema) :
    ({ col0 with type := "String", format := some "mixed" } : ColumnSchema).name = col0.name ∧
    ({ col0 with type := "String", format := some "mixed" } : ColumnSchema).tally = col0.tally ∧
    ({ col0 with type := "String", format := some "mixed" } : ColumnSchema).score = col0.score ∧
    ({ col0 with type := "String", format := some "mixed" } : ColumnSchema).probably = col0.probably :=
  ⟨rfl, rfl, rfl, rfl⟩

/-- C3: for every column descriptor produced by `getSchema`, the tally values
sum to the column's count of non-empty (classifiable) observations; that count
is positive (a column with no non-empty observation never yields a
descriptor, which settles the empty-tally clause vacuously); and the score is
defined with a value in [0, 1]. -/
theorem C3_tally_sum_score_bounds :
    ∀ (rows : List Row) (opts : Options) (col : ColumnSchema),
      col ∈ getSchema rows opts →
      sumCounts col.tally
          = (colObs opts.preferStringNumbers (columnCells rows col.name)).length ∧
      0 < (colObs opts.preferStringNumbers (columnCells rows col.name)).length ∧
      ∃ s : Rat, col.score = some s ∧ 0 ≤ s ∧ s ≤ 1 := by
  intro rows opts col h
  rcases getSchema_column_origin rows rows.length opts col h with
    ⟨name, e, col0, ov, os, hobs, hl, hsaw, hne, hfc, hty, _, _, _, _, _, _, _, hr, hd⟩
  have htne : e.types ≠ [] := by
    rw [hty]
    intro hc
    have : ov.1.type ∈ typesOfObs (ov :: os) := by
      rw [typesOfObs_mem]
      exact List.mem_map.mpr ⟨ov, List.mem_cons_self _ _, rfl⟩
    rw [hc] at this
    simp at this
  have hfcne : e.formatCounts ≠ [] := by
    rw [hfc]
    exact tallyOfObs_ne_nil _ (by simp)
  rcases resolveEntry_fields rows rows.length opts.dropEmptyColumns name e col0
    hsaw htne hfcne hr with ⟨top, rest, hsd, hname, htal, hsc, _, _⟩
  have hcolname : col.name = name := by
    rcases hd with rfl | ⟨_, _, rfl⟩
    · exact hname
    · exact hname
  have hcoltally : col.tally = e.formatCounts := by
    rcases hd with rfl | ⟨_, _, rfl⟩
    · exact htal
    · exact htal
  have hcolscore : col.score = some (mkRat top.2 e.nonEmptyCount) := by
    rcases hd with rfl | ⟨_, _, rfl⟩
    · exact hsc
    · exact hsc
  have hobs2 : colObs opts.preferStringNumbers (columnCells rows col.name) = ov :: os := by
    rw [hcolname]; exact hobs
  refine ⟨?_, ?_, ?_⟩
  · rw [hcoltally, hfc, hobs2, sumCounts_tallyOfObs]
  · rw [hobs2]; simp
  · refine ⟨mkRat top.2 e.nonEmptyCount, hcolscore, ?_, ?_⟩
    · rw [Rat.mkRat_eq_div]
      positivity
    · rw [Rat.mkRat_eq_div]
      have htople : top.2 ≤ e.nonEmptyCount := by
        have htopmem : top ∈ e.formatCounts :=
          mem_sortDesc.mp (hsd ▸ List.mem_cons_self top rest)
        have := mem_le_sumCounts htopmem
        have hsum : sumCounts e.formatCounts = e.nonEmptyCount := by
          rw [hfc, sumCounts_tallyOfObs, hne]
        omega
      have hpos : (0 : Rat) < (e.nonEmptyCount : Rat) := by
        have : 0 < e.nonEmptyCount := by rw [hne]; simp
        exact_mod_cast this
      rw [div_le_one hpos]
      exact_mod_cast htople

/-- C3 (witness): the theorem applied at a concrete dataset. -/
theorem C3_tally_sum_score_bounds_witness :
    sumCounts C3col.tally = 2 ∧ C3col.score = some 1 := by
  have h := C3_tally_sum_score_bounds C3rows {} C3col (by decide)
  exact ⟨h.1.trans (by decide), by decide⟩

/-- C5 (counterexample): the claim says a column whose score equals 1 carries
no `probably` field; but the String-branch tally recalculation (line 515 of
the source) sets `probably` unconditionally, so the column `["x","y"]`
resolves with score 1 *and* `probably = "Text"`. -/
theorem C5_counterexample :
    (getSchema [[("a", .vStr "x")], [("a", .vStr "y")]] {}).map
        (fun c => (c.type, c.score, c.probably))
      = [("String", some 1, some "Text")] := by
  decide

/-- A schema column never arises from the Number-downgrade arm of the
post-pass: under `preferStringNumbers` no resolved column has type Number. -/
theorem getSchema_col_eq_col0 (rows : List Row) (total : Nat) (opts : Options)
    (name : String) (e : Entry) (col col0 : ColumnSchema)
    (hl : lookupL (accumulate opts.preferStringNumbers rows) name = some e)
    (hr : resolveEntry rows total opts.dropEmptyColumns name e = some col0)
    (hd : col = col0 ∨
      (opts.preferStringNumbers = true ∧ col0.type = "Number" ∧
        col = { col0 with type := "String", format := some "mixed" })) :
    col = col0 := by
  rcases hd with rfl | ⟨hp, hnum, _⟩
  · rfl
  · exfalso
    rw [hp] at hl
    exact resolveEntry_type_not_number rows total _ name e col0
      (accumulate_no_number rows name e hl) hr hnum

/-- C5 (amended): every column's score is the count of the most frequent
format label in the tally divided by the non-empty observation count; for
columns not resolved as String, `probably` is reported only when score < 1 (a
score-1 column carries no `probably`); columns resolved as String always carry
`probably` (the String-branch tally recalculation sets it even at score 1). -/
theorem C5_score_probably_amended :
    ∀ (rows : List Row) (opts : Options) (col : ColumnSchema),
      col ∈ getSchema rows opts →
      col.score = some (mkRat (maxCount col.tally)
        (colObs opts.preferStringNumbers (columnCells rows col.name)).length) ∧
      (col.type ≠ "String" → col.score = some 1 → col.probably = none) ∧
      (col.type ≠ "String" → col.probably.isSome →
        ∃ s : Rat, col.score = some s ∧ s < 1) ∧
      (col.type = "String" → col.probably.isSome) := by
  intro rows opts col h
  rcases getSchema_column_origin rows rows.length opts col h with
    ⟨name, e, col0, ov, os, hobs, hl, hsaw, hne, hfc, hty, _, _, _, _, _, _, _, hr, hd⟩
  have hcol : col = col0 := getSchema_col_eq_col0 rows rows.length opts name e col col0 hl hr hd
  subst hcol
  have htne : e.types ≠ [] := by
    rw [hty]
    intro hc
    have : ov.1.type ∈ typesOfObs (ov :: os) := by
      rw [typesOfObs_mem]
      exact List.mem_map.mpr ⟨ov, List.mem_cons_self _ _, rfl⟩
    rw [hc] at this
    simp at this
  have hfcne : e.formatCounts ≠ [] := by
    rw [hfc]
    exact tallyOfObs_ne_nil _ (by simp)
  rcases resolveEntry_fields rows rows.length opts.dropEmptyColumns name e col
    hsaw htne hfcne hr with ⟨top, rest, hsd, hname, htal, hsc, hpstr, hpnot⟩
  have hmax : top.2 = maxCount col.tally := by
    rw [htal]
    exact sortDesc_head_max _ _ _ hsd
  have hobs2 : colObs opts.preferStringNumbers (columnCells rows col.name) = ov :: os := by
    rw [hname]; exact hobs
  have hlen : (colObs opts.preferStringNumbers (columnCells rows col.name)).length
      = e.nonEmptyCount := by
    rw [hobs2, hne]
  refine ⟨?_, ?_, ?_, hpstr⟩
  · rw [hsc, hmax, hlen]
  · intro htys hsc1
    have heq : mkRat top.2 e.nonEmptyCount = 1 := by
      rw [hsc] at hsc1
      injection hsc1
    rw [hpnot htys, if_neg]
    rw [heq]
    exact lt_irrefl 1
  · intro htys hps
    refine ⟨mkRat top.2 e.nonEmptyCount, hsc, ?_⟩
    by_contra hnlt
    rw [hpnot htys, if_neg hnlt] at hps
    simp at hps

/-- C5 (witness): the amended theorem applied at a concrete non-String column
with score 1. -/
theorem C5_score_probably_amended_witness :
    C5col.score = some 1 ∧ C5col.probably = none := by
  have h := C5_score_probably_amended C5rows {} C5col (by decide)
  exact ⟨by decide, h.2.1 (by decide) (by decide)⟩

/-- With non-empty observations and more than one accumulated base type, the
resolver takes the mixed branch. -/
theorem resolveEntry_mixed (rows : List Row) (total : Nat) (drop : Bool)
    (name : String) (e : Entry) (col0 : ColumnSchema)
    (hsaw : e.sawNonEmpty = true) (hlen : 1 < e.types.length)
    (h : resolveEntry rows total drop name e = some col0) :
    col0 = resolveMixed total name e := by
  unfold resolveEntry at h
  rw [hsaw] at h
  simp only [Bool.true_eq_false, if_false] at h
  rw [if_pos hlen] at h
  injection h with h2
  exact h2.symm

/-- The statistics fields of the mixed-branch descriptor, unfolded to the
shared `commonStats` computation. -/
theorem resolveMixed_stats (total : Nat) (name : String) (e : Entry) :
    (resolveMixed total name e).completeness
      = (if total ≠ 0 then mkRat e.nonEmptyCount total else 0) ∧
    (resolveMixed total name e).distinctCount = e.uniqueValues.length ∧
    (resolveMixed total name e).cardinality
      = (if e.nonEmptyCount ≠ 0 then mkRat e.uniqueValues.length e.nonEmptyCount else 0) ∧
    (resolveMixed total name e).topK = (sortDesc e.valueCounts).take 5 := by
  unfold resolveMixed commonStats
  exact ⟨rfl, rfl, rfl, rfl⟩

/-- C4 (counterexample): the column `["true","hi"]` observes two base types
(Boolean and Text), resolves to String/"mixed" with a two-entry tally summing
to 2, but its topK holds only the Text observation: the Boolean observation
never reaches the value counts (lines 333/365 update them only in the String
and Number branches), so topK is *not* computed over all observations. -/
theorem C4_counterexample :
    (getSchema [[("a", .vStr "true")], [("a", .vStr "hi")]] {}).map
        (fun c => (c.type, c.format, c.tally, c.topK))
      = [("String", some "mixed", [("Boolean", 1), ("Text", 1)], [("hi", 1)])] ∧
    sumCounts [("Boolean", 1), ("Text", 1)] = 2 ∧
    sumCounts [("hi", 1)] = 1 := by
  refine ⟨by decide, by decide, by decide⟩

/-- C4 (amended): a column observing more than one base type resolves to type
String with format "mixed", and completeness, distinctCount, cardinality,
tally, score and a best-guess probably are computed over all observations —
but topK is computed only from the value counts, which record String- and
Number-classified observations; Boolean and Date observations are absent
from it. -/
theorem C4_mixed_amended :
    ∀ (rows : List Row) (opts : Options) (col : ColumnSchema),
      col ∈ getSchema rows opts →
      1 < (typesOfObs (colObs opts.preferStringNumbers (columnCells rows col.name))).length →
      col.type = "String" ∧
      col.format = some "mixed" ∧
      col.completeness
        = mkRat (colObs opts.preferStringNumbers (columnCells rows col.name)).length
            rows.length ∧
      col.distinctCount
        = (uniquesOfObs (colObs opts.preferStringNumbers (columnCells rows col.name))).length ∧
      col.cardinality
        = mkRat (uniquesOfObs (colObs opts.preferStringNumbers (columnCells rows col.name))).length
            (colObs opts.preferStringNumbers (columnCells rows col.name)).length ∧
      col.tally = tallyOfObs (colObs opts.preferStringNumbers (columnCells rows col.name)) ∧
      (∃ top rest,
        sortDesc (tallyOfObs (colObs opts.preferStringNumbers (columnCells rows col.name)))
          = top :: rest ∧
        col.score = some (mkRat top.2
          (colObs opts.preferStringNumbers (columnCells rows col.name)).length) ∧
        col.probably = some top.1) ∧
      col.topK = (sortDesc (valueCountsOfObs
        (colObs opts.preferStringNumbers (columnCells rows col.name)))).take 5 := by
  intro rows opts col h hmlen
  rcases getSchema_column_origin rows rows.length opts col h with
    ⟨name, e, col0, ov, os, hobs, hl, hsaw, hne, hfc, hty, _, huq, hvc, _, _, _, _, hr, hd⟩
  have hcol : col = col0 := getSchema_col_eq_col0 rows rows.length opts name e col col0 hl hr hd
  subst hcol
  have htne : e.types ≠ [] := by
    rw [hty]
    intro hc
    have : ov.1.type ∈ typesOfObs (ov :: os) := by
      rw [typesOfObs_mem]
      exact List.mem_map.mpr ⟨ov, List.mem_cons_self _ _, rfl⟩
    rw [hc] at this
    simp at this
  have hfcne : e.formatCounts ≠ [] := by
    rw [hfc]
    exact tallyOfObs_ne_nil _ (by simp)
  rcases resolveEntry_fields rows rows.length opts.dropEmptyColumns name e col
    hsaw htne hfcne hr with ⟨top, rest, hsd, hname, _, _, _, _⟩
  have hobs2 : colObs opts.preferStringNumbers (columnCells rows col.name) = ov :: os := by
    rw [hname]; exact hobs
  rw [hobs2] at hmlen
  rw [← hty] at hmlen
  have hmix := resolveEntry_mixed rows rows.length opts.dropEmptyColumns name e col
    hsaw hmlen hr
  rcases resolveMixed_fields rows.length name e top rest hsd with ⟨_, f2, f3, f4, f5, f6⟩
  rcases resolveMixed_stats rows.length name e with ⟨g1, g2, g3, g4⟩
  have hre : rows ≠ [] := by
    intro hc
    subst hc
    simp [columnCells, colObs] at hobs
  have hrl : rows.length ≠ 0 := fun hc => hre (List.length_eq_zero.mp hc)
  have hnec : e.nonEmptyCount ≠ 0 := by
    rw [hne]; simp
  refine ⟨?_, ?_, ?_, ?_, ?_, ?_, ⟨top, rest, ?_, ?_, ?_⟩, ?_⟩
  · rw [hmix]; exact f2
  · rw [hmix]; exact f3
  · rw [hobs2, hmix, g1, if_pos hrl, hne]
  · rw [hobs2, hmix, g2, huq]
  · rw [hobs2, hmix, g3, if_pos hnec, huq, hne]
  · rw [hobs2, hmix, f4, hfc]
  · rw [hobs2, ← hfc]; exact hsd
  · rw [hobs2, hmix, f5, hne]
  · rw [hmix]; exact f6
  · rw [hobs2, hmix, g4, hvc]

/-- C4 (witness): the amended theorem applied at the concrete mixed column. -/
theorem C4_mixed_amended_witness :
    C4col.type = "String" ∧ C4col.format = some "mixed" ∧ C4col.topK = [("hi", 1)] := by
  have h := C4_mixed_amended C4rows {} C4col (by decide) (by decide)
  exact ⟨h.1, h.2.1, h.2.2.2.2.2.2.2.trans (by decide)⟩

/-- A value classified as Number always normalizes to a number (both share the
stripping/parsing pipeline). -/
theorem detect_number_normalizes (v : JSValue) (p : Bool) (tf : TF)
    (h : detectTypeAndFormat v p = some tf) (hty : tf.type = "Number") :
    ∃ n : Rat, normalizeNumber v false = .vNum n := by
  unfold detectTypeAndFormat at h
  rcases v with _ | b | q | s
  · exact Option.noConfusion h
  · dsimp only at h
    split at h
    · exact Option.noConfusion h
    · split at h
      · injection h with h2
        rw [← h2] at hty
        exact absurd hty (by decide)
      · rename_i hcond
        exact absurd (by simp) hcond
  · dsimp only at h
    split at h
    · exact Option.noConfusion h
    · split at h
      · injection h with h2
        rw [← h2] at hty
        exact absurd hty (by decide)
      · split at h
        case _ fmt heq =>
          injection h with h2
          rw [← h2] at hty
          simp at hty
        case _ heq =>
          split at h
          · exact ⟨q, rfl⟩
          · injection h with h2
            rw [← h2, stringSubformat_type] at hty
            exact absurd hty (by decide)
  · dsimp only at h
    split at h
    case isTrue hvE => exact Option.noConfusion h
    case isFalse hvE =>
      split at h
      · injection h with h2
        rw [← h2] at hty
        exact absurd hty (by decide)
      · split at h
        case _ fmt heq =>
          injection h with h2
          rw [← h2] at hty
          simp at hty
        case _ heq =>
          split at h
          case isTrue hp =>
            split at h
            case _ n hpd =>
              refine ⟨n, ?_⟩
              unfold normalizeNumber
              dsimp only
              rw [if_neg hvE]
              have hresne :
                  (stripNumeric (jsTrim (jsToString (JSValue.vStr s)))).residual ≠ "" := by
                intro hc
                rw [hc, parseDecimal_empty] at hpd
                exact Option.noConfusion hpd
              rw [if_neg hresne, hpd]
            case _ hpd =>
              injection h with h2
              rw [← h2, stringSubformat_type] at hty
              exact absurd hty (by decide)
          case isFalse hp =>
            injection h with h2
            rw [← h2, stringSubformat_type] at hty
            exact absurd hty (by decide)

/-- With non-empty observations and a single accumulated base type, the
resolver takes the single-type branch. -/
theorem resolveEntry_single (rows : List Row) (total : Nat) (drop : Bool)
    (name : String) (e : Entry) (col0 : ColumnSchema) (t : String)
    (hsaw : e.sawNonEmpty = true) (hty : e.types = [t])
    (h : resolveEntry rows total drop name e = some col0) :
    col0 = resolveSingle rows total name e t := by
  unfold resolveEntry at h
  rw [hsaw] at h
  simp only [Bool.true_eq_false, if_false] at h
  rw [hty] at h
  rw [if_neg (show ¬ ([t].length > 1) by simp)] at h
  dsimp only at h
  injection h with h2
  exact h2.symm

/-- When the year-upgrade guard holds, `resolveSingle` on a Number column
produces the Date/"%Y" descriptor. -/
theorem resolveSingle_year (rows : List Row) (total : Nat) (name : String) (e : Entry)
    (hC : ((lookupL e.formatsByType "Number").getD ["__none__"]).contains "Currency" = false)
    (hP : ((lookupL e.formatsByType "Number").getD ["__none__"]).contains "Percentage" = false)
    (hF : ((lookupL e.formatsByType "Number").getD ["__none__"]).contains "Float" = false)
    (hpos : 0 < e.numCount)
    (h4 : e.numFourDigitCount = e.numCount)
    (hir : e.numInRangeCount = e.numCount) :
    resolveSingle rows total name e "Number"
      = resolveSingleCore total name e "Date" (some "%Y") := by
  have hup : (("Number" : String) = "Number" ∧
      ¬ ((lookupL e.formatsByType "Number").getD ["__none__"]).contains "Currency" ∧
      ¬ ((lookupL e.formatsByType "Number").getD ["__none__"]).contains "Percentage" ∧
      ¬ ((lookupL e.formatsByType "Number").getD ["__none__"]).contains "Float" ∧
      e.numCount > 0 ∧ e.numFourDigitCount = e.numCount ∧ e.numInRangeCount = e.numCount) :=
    ⟨rfl,
     fun hc => by rw [hC] at hc; exact Bool.noConfusion hc,
     fun hc => by rw [hP] at hc; exact Bool.noConfusion hc,
     fun hc => by rw [hF] at hc; exact Bool.noConfusion hc,
     hpos, h4, hir⟩
  unfold resolveSingle
  dsimp only
  rw [decide_eq_true hup]
  rfl

/-- The fields of the Date descriptor assembly. -/
theorem resolveSingleCore_date (total : Nat) (name : String) (e : Entry)
    (fmt : Option String) :
    (resolveSingleCore total name e "Date" fmt).type = "Date" ∧
    (resolveSingleCore total name e "Date" fmt).format = fmt ∧
    (resolveSingleCore total name e "Date" fmt).sequential
      = some (if e.numCount ≥ 2 then e.isSequential else false) := by
  unfold resolveSingleCore
  rw [if_neg (by decide : ¬ ("Date" : String) = "String"),
      if_neg (by decide : ¬ ("Date" : String) = "Number"),
      if_pos (rfl : ("Date" : String) = "Date")]
  exact ⟨rfl, rfl, rfl⟩

/-- C2: a column whose single observed base type is Number, with no
Currency/Percentage/Float formats, all of whose numeric observations are
(4-digit) integers in [1800, 2100], is upgraded to type Date with format "%Y",
preserving the sequential flag; concretely, the string column
["1999","2000","2001"] resolves to Date/"%Y"/sequential true, while
["1999","2000","1500"] keeps type Number. -/
theorem C2_year_upgrade :
    (∀ (rows : List Row) (opts : Options) (col : ColumnSchema),
      col ∈ getSchema rows opts →
      typesOfObs (colObs opts.preferStringNumbers (columnCells rows col.name)) = ["Number"] →
      ((lookupL (formatsOfObs (colObs opts.preferStringNumbers (columnCells rows col.name)))
          "Number").getD ["__none__"]).contains "Currency" = false →
      ((lookupL (formatsOfObs (colObs opts.preferStringNumbers (columnCells rows col.name)))
          "Number").getD ["__none__"]).contains "Percentage" = false →
      ((lookupL (formatsOfObs (colObs opts.preferStringNumbers (columnCells rows col.name)))
          "Number").getD ["__none__"]).contains "Float" = false →
      (∀ n ∈ numericObs (colObs opts.preferStringNumbers (columnCells rows col.name)),
        n.den = 1 ∧ (1800 : Rat) ≤ n ∧ n ≤ (2100 : Rat)) →
      col.type = "Date" ∧ col.format = some "%Y" ∧
      col.sequential = some
        (if (numericObs (colObs opts.preferStringNumbers (columnCells rows col.name))).length ≥ 2
         then chainSucc (numericObs (colObs opts.preferStringNumbers (columnCells rows col.name)))
         else false)) ∧
    (getSchema [[("y", .vStr "1999")], [("y", .vStr "2000")], [("y", .vStr "2001")]] {}).map
        (fun c => (c.type, c.format, c.sequential))
      = [("Date", some "%Y", some true)] ∧
    (getSchema [[("y", .vStr "1999")], [("y", .vStr "2000")], [("y", .vStr "1500")]] {}).map
        (fun c => c.type) = ["Number"] := by
  refine ⟨?_, by decide, by decide⟩
  intro rows opts col h hty hC hP hF hnum
  rcases getSchema_column_origin rows rows.length opts col h with
    ⟨name, e, col0, ov, os, hobs, hl, hsaw, hne, hfc, htyE, hfbt, _, _, hseq,
      hnumc, hnfd, hnir, hr, hd⟩
  have hcol : col = col0 := getSchema_col_eq_col0 rows rows.length opts name e col col0 hl hr hd
  subst hcol
  have htne : e.types ≠ [] := by
    rw [htyE]
    intro hc
    have : ov.1.type ∈ typesOfObs (ov :: os) := by
      rw [typesOfObs_mem]
      exact List.mem_map.mpr ⟨ov, List.mem_cons_self _ _, rfl⟩
    rw [hc] at this
    simp at this
  have hfcne : e.formatCounts ≠ [] := by
    rw [hfc]
    exact tallyOfObs_ne_nil _ (by simp)
  rcases resolveEntry_fields rows rows.length opts.dropEmptyColumns name e col
    hsaw htne hfcne hr with ⟨top, rest, hsd, hname, _, _, _, _⟩
  have hobs2 : colObs opts.preferStringNumbers (columnCells rows col.name) = ov :: os := by
    rw [hname]; exact hobs
  rw [hobs2] at hty hC hP hF hnum
  have htys : e.types = ["Number"] := htyE.trans hty
  rw [← hfbt] at hC hP hF
  have hsingle : col = resolveSingle rows rows.length name e "Number" :=
    resolveEntry_single rows rows.length opts.dropEmptyColumns name e col "Number"
      hsaw htys hr
  have hovty : ov.1.type = "Number" := by
    have hm : ov.1.type ∈ typesOfObs (ov :: os) := by
      rw [typesOfObs_mem]
      exact List.mem_map.mpr ⟨ov, List.mem_cons_self _ _, rfl⟩
    rw [hty] at hm
    simpa using hm
  have hdet : detectTypeAndFormat ov.2 opts.preferStringNumbers = some ov.1 :=
    mem_colObs (by rw [hobs]; exact List.mem_cons_self _ _)
  rcases detect_number_normalizes ov.2 opts.preferStringNumbers ov.1 hdet hovty with ⟨n0, hn0⟩
  have hnv : numValOf ov.1 ov.2 = some n0 := by
    unfold numValOf
    rw [if_pos hovty, hn0]
  have hnObs : numericObs (ov :: os) = n0 :: numericObs os := by
    unfold numericObs
    rw [List.filterMap_cons, hnv]
  have hpos : 0 < e.numCount := by
    rw [hnumc, hnObs]
    simp
  have h4 : e.numFourDigitCount = e.numCount := by
    rw [hnfd, hnumc]
    congr 1
    apply List.filter_eq_self.mpr
    intro a ha
    rcases hnum a ha with ⟨h1, h2, h3⟩
    exact decide_eq_true ⟨h1, le_trans (by norm_num) h2, le_trans h3 (by norm_num)⟩
  have hir : e.numInRangeCount = e.numCount := by
    rw [hnir, hnumc]
    congr 1
    apply List.filter_eq_self.mpr
    intro a ha
    rcases hnum a ha with ⟨h1, h2, h3⟩
    exact decide_eq_true ⟨h1, h2, h3⟩
  have hcore : col = resolveSingleCore rows.length name e "Date" (some "%Y") :=
    hsingle.trans (resolveSingle_year rows rows.length name e hC hP hF hpos h4 hir)
  rcases resolveSingleCore_date rows.length name e (some "%Y") with ⟨d1, d2, d3⟩
  refine ⟨?_, ?_, ?_⟩
  · rw [hcore]; exact d1
  · rw [hcore]; exact d2
  · rw [hobs2, hcore, d3, hnumc, hseq]

/-- C2 (witness): the universal year-upgrade statement applied at the
concrete year column. -/
theorem C2_year_upgrade_witness :
    C2col.type = "Date" ∧ C2col.format = some "%Y" ∧ C2col.sequential = some true := by
  have h := C2_year_upgrade.1 C2rows {} C2col (by decide) (by decide) (by decide)
    (by decide) (by decide) (by decide)
  exact ⟨h.1, h.2.1, h.2.2.trans (by decide)⟩

theorem objsOf_cons_obj (row : Row) (es : List RowEntry) :
    objsOf (.obj row :: es) = row :: objsOf es := by
  unfold objsOf
  rw [List.filterMap_cons]

theorem objsOf_cons_prim (es : List RowEntry) :
    objsOf (.prim :: es) = objsOf es := by
  unfold objsOf
  rw [List.filterMap_cons]

/-- Without `null`/`undefined` entries, the raw-entry date-format guesser
returns (without throwing) exactly the pure guess over the object rows. -/
theorem guessColumnDateFormatE_ok (entries : List RowEntry) (name : String)
    (h : ∀ en ∈ entries, en ≠ RowEntry.nullish) :
    guessColumnDateFormatE entries name
      = Except.ok (guessColumnDateFormat (objsOf entries) name) := by
  have key : ∀ (es : List RowEntry),
      (∀ en ∈ es, en ≠ RowEntry.nullish) →
      ∀ (cs : List (String × Nat)),
      (es.foldlM (fun counts entry => do
        match entry with
        | .nullish => throw .typeError
        | .prim => pure counts
        | .obj row => pure (dateGuessStep name counts row)) cs
        : Except JsError (List (String × Nat)))
      = Except.ok ((objsOf es).foldl (dateGuessStep name) cs) := by
    intro es
    induction es with
    | nil =>
      intro _ cs
      rfl
    | cons en es ih =>
      intro hh cs
      have hen : en ≠ RowEntry.nullish := hh en (List.mem_cons_self _ _)
      have hrest : ∀ x ∈ es, x ≠ RowEntry.nullish :=
        fun x hx => hh x (List.mem_cons_of_mem _ hx)
      rcases en with row | _ | _
      · rw [List.foldlM_cons, objsOf_cons_obj, List.foldl_cons]
        exact ih hrest (dateGuessStep name cs row)
      · rw [List.foldlM_cons, objsOf_cons_prim]
        exact ih hrest cs
      · exact absurd rfl hen
  unfold guessColumnDateFormatE guessColumnDateFormat
  rw [key entries h []]
  rfl

/-- Without `null`/`undefined` entries, resolving against the raw entries
never throws and agrees with the pure resolver over the object rows. -/
theorem resolveEntryE_ok (entries : List RowEntry) (total : Nat) (drop : Bool)
    (name : String) (e : Entry) (h : ∀ en ∈ entries, en ≠ RowEntry.nullish) :
    resolveEntryE entries total drop name e
      = Except.ok (resolveEntry (objsOf entries) total drop name e) := by
  unfold resolveEntryE resolveEntry
  by_cases hsaw : e.sawNonEmpty = false
  · rw [if_pos hsaw, if_pos hsaw]
    by_cases hdrop : drop = true
    · rw [if_pos hdrop, if_pos hdrop]
      rfl
    · rw [if_neg hdrop, if_neg hdrop]
      rfl
  · rw [if_neg hsaw, if_neg hsaw]
    by_cases hlen : e.types.length > 1
    · rw [if_pos hlen, if_pos hlen]
      rfl
    · rw [if_neg hlen, if_neg hlen]
      rcases hty : e.types with _ | ⟨t, ts⟩
      · rfl
      · rcases ts with _ | ⟨t2, ts2⟩
        · dsimp only
          by_cases hdate : (resolveSingle (objsOf entries) total name e t).type = "Date"
          · rw [if_pos hdate, guessColumnDateFormatE_ok entries name h]
            rfl
          · rw [if_neg hdate]
            rfl
        · rfl

/-- Without `null`/`undefined` entries, `getSchemaE` never throws: it returns
the pure schema of the object rows, with `totalRows` counting all entries. -/
theorem getSchemaE_ok (entries : List RowEntry) (opts : Options)
    (h : ∀ en ∈ entries, en ≠ RowEntry.nullish) :
    getSchemaE entries opts
      = Except.ok (getSchemaWith (objsOf entries) entries.length opts) := by
  have key : ∀ (ps : List (String × Entry)) (res : List ColumnSchema),
      (ps.foldlM (fun results p => do
        let r ← resolveEntryE entries entries.length opts.dropEmptyColumns p.1 p.2
        pure (appendResolved results r)) res
        : Except JsError (List ColumnSchema))
      = Except.ok (res ++ ps.filterMap (fun p =>
          resolveEntry (objsOf entries) entries.length opts.dropEmptyColumns p.1 p.2)) := by
    intro ps
    induction ps with
    | nil =>
      intro res
      show Except.ok res = Except.ok (res ++ List.filterMap _ [])
      simp
    | cons p ps ih =>
      intro res
      simp only [List.foldlM_cons, List.filterMap_cons]
      rw [resolveEntryE_ok entries entries.length opts.dropEmptyColumns p.1 p.2 h]
      rcases hR : resolveEntry (objsOf entries) entries.length opts.dropEmptyColumns p.1 p.2
        with _ | col
      · exact ih res
      · exact (ih (res ++ [col])).trans (by simp)
  unfold getSchemaE getSchemaWith
  dsimp only
  rw [key (accumulate opts.preferStringNumbers (objsOf entries)) []]
  rfl

/-- C8 (counterexample): an array holding a Date-looking column and a `null`
entry makes `getSchema` throw: the resolved Date column re-reads every raw
entry in `guessColumnDateFormat`, whose unguarded property read (line 746)
throws `TypeError` on `null` — refuting "never raises an error on any array
input". -/
theorem C8_counterexample :
    getSchemaE [.obj [("d", .vStr "2020-01-01")], .nullish] {}
      = Except.error .typeError := by
  rfl

/-- C8 (amended): non-object primitive entries are silently skipped during
accumulation (they contribute nothing to column statistics, though they still
count toward `totalRows`), and on any array free of `null`/`undefined`
entries `getSchema` completes without error, returning the schema of the
object rows; concretely, a dataset with one object row and one primitive
entry yields the object row's schema with completeness 1/2.  (The JSON-parse
failure on string input is a JS built-in outside this model.) -/
theorem C8_skip_no_error_amended :
    (∀ (entries : List RowEntry) (opts : Options),
      (∀ en ∈ entries, en ≠ RowEntry.nullish) →
      getSchemaE entries opts
        = Except.ok (getSchemaWith (objsOf entries) entries.length opts)) ∧
    getSchemaE [.obj [("a", .vStr "x")], .prim] {}
      = Except.ok (getSchemaWith [[("a", .vStr "x")]] 2 {}) ∧
    (getSchemaWith [[("a", .vStr "x")]] 2 {}).map (fun c => (c.name, c.completeness))
      = [("a", mkRat 1 2)] := by
  refine ⟨fun entries opts h => getSchemaE_ok entries opts h, by rfl, by decide⟩

/-- C8 (witness): the amended no-error statement applied at a concrete
entry list. -/
theorem C8_skip_no_error_amended_witness :
    getSchemaE C8entries {}
      = Except.ok (getSchemaWith (objsOf C8entries) C8entries.length {}) :=
  C8_skip_no_error_amended.1 C8entries {} (by decide)

/-- JS-object assignment folding keeps already-distinct keys in order: with
pairwise-distinct keys (and none already present), the fold is a plain
append. -/
theorem foldl_objAssign_nodup (pairs props : List (String × PropSchema))
    (h1 : ∀ p ∈ pairs, ∀ q ∈ props, q.1 ≠ p.1)
    (h2 : (pairs.map Prod.fst).Nodup) :
    pairs.foldl (fun props p =>
      if props.any (fun q => q.1 = p.1) then
        props.map (fun q => if q.1 = p.1 then p else q)
      else props ++ [p]) props = props ++ pairs := by
  induction pairs generalizing props with
  | nil => simp
  | cons p ps ih =>
    rw [List.foldl_cons]
    have hany : props.any (fun q => q.1 = p.1) = false := by
      apply List.any_eq_false.mpr
      intro q hq
      simpa using h1 p (List.mem_cons_self _ _) q hq
    simp only [hany, Bool.false_eq_true, if_false]
    have hnotin : p.1 ∉ ps.map Prod.fst := by
      have := h2
      rw [List.map_cons, List.nodup_cons] at this
      exact this.1
    have h1' : ∀ x ∈ ps, ∀ q ∈ props ++ [p], q.1 ≠ x.1 := by
      intro x hx q hq
      rcases List.mem_append.mp hq with hq | hq
      · exact h1 x (List.mem_cons_of_mem _ hx) q hq
      · rcases List.mem_singleton.mp hq with rfl
        intro hc
        exact hnotin (hc ▸ List.mem_map.mpr ⟨x, hx, rfl⟩)
    have h2' : (ps.map Prod.fst).Nodup := by
      have := h2
      rw [List.map_cons, List.nodup_cons] at this
      exact this.2
    exact (ih (props ++ [p]) h1' h2').trans (by simp)

/-- C9 (counterexample): a non-empty array of raw row objects whose first row
has a "name" key defeats the raw-rows detection (line 619): the rows are
consumed as if they were descriptors, keying `properties` by the row's "name"
*value* instead of inferring columns via `getSchema` (which would produce the
column "name"). -/
theorem C9_counterexample :
    toJSONSchema (.rows [[("name", .vStr "Alice")]]) {}
      = { properties := [("Alice", { type := "string" })], required := none } ∧
    (getSchema [[("name", .vStr "Alice")]] {}).map (fun c => c.name) = ["name"] := by
  refine ⟨by decide, by decide⟩

/-- C9 (amended): for a non-empty array of raw row objects whose *first row
carries no "name" key*, `toJSONSchema` infers the descriptors via `getSchema`
and assembles the document from them; `properties` maps each (distinctly
named) column to its property schema in order, and `required` is `none`
exactly when no column has completeness 1 and otherwise lists exactly the
columns whose completeness equals 1. -/
theorem C9_toJSONSchema_amended :
    (∀ (r0 : Row) (rest : List Row) (opts : Options),
      r0.any (fun p => p.1 = "name") = false →
      toJSONSchema (.rows (r0 :: rest)) opts
        = buildJSONSchema (getSchema (r0 :: rest) opts)) ∧
    (∀ cs : List ColumnSchema, (cs.map ColumnSchema.name).Nodup →
      (buildJSONSchema cs).properties = cs.map (fun col => (col.name, colToProp col))) ∧
    (∀ cs : List ColumnSchema,
      ((buildJSONSchema cs).required = none ↔ ∀ col ∈ cs, ¬ col.completeness = 1)) ∧
    (∀ (cs : List ColumnSchema) (req : List String) (n : String),
      (buildJSONSchema cs).required = some req →
      (n ∈ req ↔ ∃ col ∈ cs, col.name = n ∧ col.completeness = 1)) := by
  refine ⟨?_, ?_, ?_, ?_⟩
  · intro r0 rest opts hfalse
    unfold toJSONSchema
    dsimp only
    rw [if_neg (by simp [hfalse])]
  · intro cs hnd
    unfold buildJSONSchema
    dsimp only
    rw [foldl_objAssign_nodup (cs.map fun col => (col.name, colToProp col)) []
      (by intro p _ q hq; exact absurd hq (List.not_mem_nil q))
      (by simpa [List.map_map, Function.comp] using hnd)]
    rw [List.nil_append]
  · intro cs
    unfold buildJSONSchema
    dsimp only
    constructor
    · intro h col hmem hc
      by_cases he : ((cs.filter (fun col => col.completeness = 1)).map
          (fun col => col.name)).isEmpty = true
      · have hfil : col ∈ cs.filter (fun col => col.completeness = 1) :=
          List.mem_filter.mpr ⟨hmem, decide_eq_true hc⟩
        have : (col.name : String) ∈ (cs.filter (fun col => col.completeness = 1)).map
            (fun col => col.name) := List.mem_map.mpr ⟨col, hfil, rfl⟩
        rw [List.isEmpty_iff] at he
        rw [he] at this
        simp at this
      · rw [if_neg he] at h
        exact Option.noConfusion h
    · intro hall
      have hfil : cs.filter (fun col => col.completeness = 1) = [] := by
        apply List.filter_eq_nil_iff.mpr
        intro col hcol
        simpa using hall col hcol
      rw [hfil]
      rfl
  · intro cs req n h
    by_cases he : ((cs.filter (fun col => col.completeness = 1)).map
        (fun col => col.name)).isEmpty = true
    · unfold buildJSONSchema at h
      dsimp only at h
      rw [if_pos he] at h
      exact Option.noConfusion h
    · unfold buildJSONSchema at h
      dsimp only at h
      rw [if_neg he] at h
      injection h with h2
      rw [← h2]
      constructor
      · intro hn
        rcases List.mem_map.mp hn with ⟨col, hcol, hname⟩
        rcases List.mem_filter.mp hcol with ⟨hmem, hcomp⟩
        exact ⟨col, hmem, hname, of_decide_eq_true hcomp⟩
      · intro ⟨col, hmem, hname, hcomp⟩
        exact List.mem_map.mpr ⟨col,
          List.mem_filter.mpr ⟨hmem, decide_eq_true hcomp⟩, hname⟩

/-- C9 (witness): the amended detection statement applied at a concrete
single-row dataset without a "name" key. -/
theorem C9_toJSONSchema_amended_witness :
    toJSONSchema (.rows [[("age", .vStr "32")]]) {}
      = buildJSONSchema (getSchema [[("age", .vStr "32")]] {}) :=
  C9_toJSONSchema_amended.1 [("age", .vStr "32")] [] {} (by decide)

/-! ### Supporting lemmas for `dataFormat` (C7) -/

theorem lookupL_setmap_self (row : Row) (k : String) (v : JSValue)
    (hany : row.any (fun p => p.1 = k) = true) :
    lookupL (row.map (fun p => if p.1 = k then (k, v) else p)) k = some v := by
  induction row with
  | nil => simp at hany
  | cons p ps ih =>
    rw [List.map_cons, lookupL_cons]
    by_cases hp : p.1 = k
    · simp [hp]
    · rw [if_neg hp, if_neg hp]
      apply ih
      rw [List.any_cons] at hany
      simpa [hp] using hany

theorem lookupL_setmap_other (row : Row) (k n : String) (v : JSValue) (h : n ≠ k) :
    lookupL (row.map (fun p => if p.1 = k then (k, v) else p)) n = lookupL row n := by
  induction row with
  | nil => rfl
  | cons p ps ih =>
    rw [List.map_cons, lookupL_cons, lookupL_cons]
    by_cases hp : p.1 = k
    · have hkk : ¬ ((k : String) = n) := fun hc => h hc.symm
      have hpk : ¬ (p.1 = n) := fun hc => h ((hp.symm.trans hc).symm)
      simp [hp, hkk, hpk, ih]
    · rw [if_neg hp]
      by_cases hn : p.1 = n
      · rw [if_pos hn, if_pos hn]
      · rw [if_neg hn, if_neg hn]
        exact ih

theorem lookupL_objSet_self (row : Row) (k : String) (v : JSValue) :
    lookupL (objSet row k v) k = some v := by
  unfold objSet
  by_cases hany : row.any (fun p => p.1 = k) = true
  · rw [if_pos hany]
    exact lookupL_setmap_self row k v hany
  · rw [if_neg hany]
    have hnone : lookupL row k = none := by
      rcases hl : lookupL row k with _ | x
      · rfl
      · exact absurd ((any_key_iff row k).mpr (by rw [hl]; rfl)) hany
    rw [lookupL_append_left row [(k, v)] k hnone, lookupL_cons]
    simp

theorem lookupL_objSet_other (row : Row) (k n : String) (v : JSValue) (h : n ≠ k) :
    lookupL (objSet row k v) n = lookupL row n := by
  unfold objSet
  by_cases hany : row.any (fun p => p.1 = k) = true
  · rw [if_pos hany]
    exact lookupL_setmap_other row k n v h
  · rw [if_neg hany]
    exact lookupL_append_single_ne row k n v (Ne.symm h)

/-- Accumulator keys stay pairwise distinct through one bump. -/
theorem accBump_keysND (acc : AccMap) (name : String) (g : Entry → Entry)
    (h : (acc.map Prod.fst).Nodup) : ((accBump acc name g).map Prod.fst).Nodup := by
  unfold accBump
  by_cases hany : acc.any (fun p => p.1 = name) = true
  · rw [if_pos hany, List.map_map]
    have : (acc.map (Prod.fst ∘ fun p => if p.1 = name then (p.1, g p.2) else p))
        = acc.map Prod.fst := by
      apply List.map_congr_left
      intro p _
      by_cases hp : p.1 = name
      · simp [Function.comp, hp]
      · simp [Function.comp, hp]
    rw [this]
    exact h
  · rw [if_neg hany, List.map_append]
    rw [List.nodup_append]
    refine ⟨h, List.nodup_singleton _, ?_⟩
    intro a ha hb
    rcases List.mem_singleton.mp (by simpa using hb) with rfl
    rcases List.mem_map.mp ha with ⟨p, hp, hfst⟩
    exact hany (List.any_eq_true.mpr ⟨p, hp, decide_eq_true hfst⟩)

theorem accumRow_keysND (p : Bool) (row : Row) :
    ∀ acc : AccMap, (acc.map Prod.fst).Nodup →
      ((accumRow p acc row).map Prod.fst).Nodup := by
  unfold accumRow
  induction row with
  | nil => intro acc h; exact h
  | cons cell cells ih =>
    intro acc h
    rw [List.foldl_cons]
    rcases hdet : detectTypeAndFormat cell.2 p with _ | tf
    · exact ih acc h
    · exact ih _ (accBump_keysND acc cell.1 _ h)

theorem accumulate_keysND (p : Bool) (rows : List Row) :
    ((accumulate p rows).map Prod.fst).Nodup := by
  unfold accumulate
  suffices h : ∀ acc : AccMap, (acc.map Prod.fst).Nodup →
      ((rows.foldl (accumRow p) acc).map Prod.fst).Nodup from h [] (by simp)
  induction rows with
  | nil => intro acc h; exact h
  | cons row rest ih =>
    intro acc h
    rw [List.foldl_cons]
    exact ih _ (accumRow_keysND p row acc h)

theorem resolveSingleCore_name (total : Nat) (name : String) (e : Entry)
    (rt : String) (format : Option String) :
    (resolveSingleCore total name e rt format).name = name := by
  unfold resolveSingleCore
  simp [apply_ite ColumnSchema.name]

/-- Every resolved column carries the accumulator key as its name. -/
theorem resolveEntry_name (rows : List Row) (total : Nat) (drop : Bool)
    (name : String) (e : Entry) (col0 : ColumnSchema)
    (h : resolveEntry rows total drop name e = some col0) : col0.name = name := by
  unfold resolveEntry at h
  by_cases hsaw : e.sawNonEmpty = false
  · rw [if_pos hsaw] at h
    by_cases hdrop : drop = true
    · rw [if_pos hdrop] at h
      exact Option.noConfusion h
    · rw [if_neg hdrop] at h
      injection h with h2
      rw [← h2]
      rfl
  · rw [if_neg hsaw] at h
    by_cases hlen : e.types.length > 1
    · rw [if_pos hlen] at h
      injection h with h2
      rw [← h2]
      rfl
    · rw [if_neg hlen] at h
      rcases hty : e.types with _ | ⟨t, ts⟩
      all_goals rw [hty] at h
      · injection h with h2
        rw [← h2]
        rfl
      · rcases ts with _ | ⟨t2, ts2⟩
        · injection h with h2
          rw [← h2]
          unfold resolveSingle
          dsimp only
          rw [resolveSingleCore_name]
        · injection h with h2
          rw [← h2]
          rfl

theorem postPass_names (prefer : Bool) (rows : List Row) (cols : List ColumnSchema) :
    (postPass prefer rows cols).map ColumnSchema.name = cols.map ColumnSchema.name := by
  unfold postPass
  split
  · rw [List.map_map]
    apply List.map_congr_left
    intro r _
    dsimp only [Function.comp]
    by_cases hc : (r.type = "Number" ∧ ¬ allNumericCol rows r.name)
    · rw [if_pos hc]
    · rw [if_neg hc]
  · rfl

/-- Schema column names are pairwise distinct. -/
theorem getSchemaWith_names_nodup (rows : List Row) (total : Nat) (opts : Options) :
    ((getSchemaWith rows total opts).map ColumnSchema.name).Nodup := by
  unfold getSchemaWith
  dsimp only
  rw [postPass_names]
  have key : ∀ (acc : AccMap), (acc.map Prod.fst).Nodup →
      (((acc.filterMap (fun p =>
          resolveEntry rows total opts.dropEmptyColumns p.1 p.2)).map
        ColumnSchema.name).Nodup ∧
       ∀ n ∈ (acc.filterMap (fun p =>
          resolveEntry rows total opts.dropEmptyColumns p.1 p.2)).map
        ColumnSchema.name, n ∈ acc.map Prod.fst) := by
    intro acc
    induction acc with
    | nil => intro _; exact ⟨List.nodup_nil, by simp⟩
    | cons p ps ih =>
      intro h
      rw [List.map_cons, List.nodup_cons] at h
      rcases ih h.2 with ⟨ihnd, ihsub⟩
      rw [List.filterMap_cons]
      rcases hres : resolveEntry rows total opts.dropEmptyColumns p.1 p.2 with _ | col
      · exact ⟨ihnd, fun n hn => List.mem_cons_of_mem _ (ihsub n hn)⟩
      · rw [List.map_cons]
        have hname : col.name = p.1 :=
          resolveEntry_name rows total opts.dropEmptyColumns p.1 p.2 col hres
        constructor
        · rw [List.nodup_cons]
          refine ⟨fun hmem => ?_, ihnd⟩
          rw [hname] at hmem
          exact h.1 (ihsub p.1 hmem)
        · intro n hn
          rcases List.mem_cons.mp hn with rfl | hn
          · rw [hname]
            exact List.mem_cons_self _ _
          · exact List.mem_cons_of_mem _ (ihsub n hn)
  exact (key _ (accumulate_keysND opts.preferStringNumbers rows)).1

/-- Columns whose name differs from `k` never touch the key `k`. -/
theorem lookup_formatFold_miss (opts : Options) (src : Row) (k : String) :
    ∀ (cs : List ColumnSchema) (dst : Row),
      (∀ c ∈ cs, c.name ≠ k) →
      lookupL (cs.foldl (formatRowStep opts src) dst) k = lookupL dst k := by
  intro cs
  induction cs with
  | nil => intro dst _; rfl
  | cons c cs ih =>
    intro dst h
    rw [List.foldl_cons]
    have hck : c.name ≠ k := h c (List.mem_cons_self _ _)
    have hrest : ∀ x ∈ cs, x.name ≠ k := fun x hx => h x (List.mem_cons_of_mem _ hx)
    rw [ih (formatRowStep opts src dst c) hrest]
    unfold formatRowStep
    rcases lookupL src c.name with _ | val
    · rfl
    · exact lookupL_objSet_other dst c.name k _ (Ne.symm hck)

/-- The one column named `col.name` determines the output value at that key. -/
theorem lookup_formatFold_hit (opts : Options) (src : Row) :
    ∀ (cs : List ColumnSchema) (dst : Row) (col : ColumnSchema),
      (cs.map ColumnSchema.name).Nodup → col ∈ cs →
      (lookupL src col.name = none →
        lookupL (cs.foldl (formatRowStep opts src) dst) col.name = lookupL dst col.name) ∧
      (∀ v, lookupL src col.name = some v →
        lookupL (cs.foldl (formatRowStep opts src) dst) col.name
          = some (formatCell opts col v)) := by
  intro cs
  induction cs with
  | nil => intro dst col _ hmem; exact absurd hmem (List.not_mem_nil col)
  | cons c cs ih =>
    intro dst col hnd hmem
    rw [List.map_cons, List.nodup_cons] at hnd
    rw [List.foldl_cons]
    rcases List.mem_cons.mp hmem with rfl | hmem
    · have hrest : ∀ x ∈ cs, x.name ≠ col.name := by
        intro x hx hc
        exact hnd.1 (hc ▸ List.mem_map.mpr ⟨x, hx, rfl⟩)
      constructor
      · intro hnone
        rw [lookup_formatFold_miss opts src col.name cs _ hrest]
        unfold formatRowStep
        rw [hnone]
      · intro v hv
        rw [lookup_formatFold_miss opts src col.name cs _ hrest]
        unfold formatRowStep
        rw [hv]
        exact lookupL_objSet_self dst col.name _
    · have hcname : c.name ≠ col.name := by
        intro hc
        exact hnd.1 (hc ▸ List.mem_map.mpr ⟨col, hmem, rfl⟩)
      rcases ih (formatRowStep opts src dst c) col hnd.2 hmem with ⟨ihn, ihs⟩
      constructor
      · intro hnone
        rw [ihn hnone]
        unfold formatRowStep
        rcases lookupL src c.name with _ | val
        · rfl
        · exact lookupL_objSet_other dst c.name col.name _ (Ne.symm hcname)
      · intro v hv
        exact ihs v hv

/-- C7: `dataFormat` emits exactly one output row per input row; at every
schema column the output value is the source value put through the per-type
coercion — `normalizeNumber` (with the `numberEmptyAsNull` policy, default
true) for Number columns, `normalizeBoolean` for Boolean columns, and the
identity for every other resolved type; concretely, a year-upgraded Date
column of numeric-looking strings is returned verbatim, while a currency
string is coerced and an empty Number cell becomes null. -/
theorem C7_dataFormat_coercion :
    (∀ (rows : List Row) (opts : Options), (dataFormat rows opts).length = rows.length) ∧
    (∀ (rows : List Row) (opts : Options) (i : Nat) (src : Row),
      rows[i]? = some src →
      ∀ col ∈ getSchema rows opts,
      ∃ out : Row, (dataFormat rows opts)[i]? = some out ∧
        lookupL out col.name = (lookupL src col.name).map (formatCell opts col) ∧
        (col.type = "Number" →
          lookupL out col.name
            = (lookupL src col.name).map (fun v => normalizeNumber v opts.numberEmptyAsNull)) ∧
        (col.type = "Boolean" →
          lookupL out col.name = (lookupL src col.name).map normalizeBoolean) ∧
        (col.type ≠ "Number" → col.type ≠ "Boolean" →
          lookupL out col.name = lookupL src col.name)) ∧
    dataFormat [[("y", .vStr "1999")], [("y", .vStr "2000")], [("y", .vStr "2001")]] {}
      = [[("y", .vStr "1999")], [("y", .vStr "2000")], [("y", .vStr "2001")]] ∧
    dataFormat [[("n", .vStr "$2,345.50")], [("n", .vStr "")]] {}
      = [[("n", .vNum (mkRat 4691 2))], [("n", .vNull)]] := by
  refine ⟨fun rows opts => by simp [dataFormat], ?_, by decide, by decide⟩
  intro rows opts i src hsrc col hcol
  refine ⟨(getSchema rows opts).foldl (formatRowStep opts src)
      (if opts.dropEmptyColumns then ([] : Row) else src), ?_, ?_⟩
  · unfold dataFormat
    dsimp only
    rw [List.getElem?_map, hsrc]
    rfl
  have hnd : ((getSchema rows opts).map ColumnSchema.name).Nodup :=
    getSchemaWith_names_nodup rows rows.length opts
  rcases lookup_formatFold_hit opts src (getSchema rows opts)
      (if opts.dropEmptyColumns then ([] : Row) else src) col hnd hcol with ⟨hn, hs⟩
  have hmain : lookupL ((getSchema rows opts).foldl (formatRowStep opts src)
      (if opts.dropEmptyColumns then ([] : Row) else src)) col.name
      = (lookupL src col.name).map (formatCell opts col) := by
    rcases hv : lookupL src col.name with _ | v
    · rw [hn hv]
      by_cases hdrop : opts.dropEmptyColumns = true
      · rw [if_pos hdrop]
        rfl
      · rw [if_neg hdrop, hv]
        rfl
    · rw [hs v hv]
      rfl
  refine ⟨hmain, ?_, ?_, ?_⟩
  · intro hT
    rw [hmain]
    rcases lookupL src col.name with _ | v
    · rfl
    · show some (formatCell opts col v) = some (normalizeNumber v opts.numberEmptyAsNull)
      unfold formatCell
      rw [if_pos hT]
  · intro hT
    have hnum : ¬ col.type = "Number" := by
      rw [hT]
      decide
    rw [hmain]
    rcases lookupL src col.name with _ | v
    · rfl
    · show some (formatCell opts col v) = some (normalizeBoolean v)
      unfold formatCell
      rw [if_neg hnum, if_pos hT]
  · intro h1 h2
    rw [hmain]
    rcases lookupL src col.name with _ | v
    · rfl
    · show some (formatCell opts col v) = some v
      unfold formatCell
      rw [if_neg h1, if_neg h2]

/-- C7 (witness): the coercion statement applied at a concrete String column,
whose value is returned unchanged. -/
theorem C7_dataFormat_coercion_witness :
    ∃ out : Row, (dataFormat C7rows {})[0]? = some out ∧
      lookupL out C7col.name = some (.vStr "x") := by
  rcases C7_dataFormat_coercion.2.1 C7rows {} 0 [("t", .vStr "x")] (by decide) C7col (by decide)
    with ⟨out, hout, _, _, _, hunch⟩
  refine ⟨out, hout, ?_⟩
  rw [hunch (by decide) (by decide)]
  decide

end SchemaForge
